import Mathlib

/-! Flash: RUDP file transfer, packet codec and transfer engines.

A shallow embedding of `pkg/packet/packet.go`, of the primary transmission loop of
`pkg/transfer/client.go` and of the NACK scan and the finalization of
`pkg/transfer/server.go`.

Conventions.
* A byte is a `Nat` below 256, a `[]byte` is a `List Nat`.
* `uint8`, `uint16`, `uint32` are `Nat` with explicit reduction modulo `2^w` at the
  places where Go converts or overflows; `int64` is an `Int`.
* Go's standard library (`bytes.Buffer`, `bytes.Reader`, `io.ReadFull`,
  `encoding/binary`, `hash/crc32`) is embedded by the behaviour of its source.
* `crypto/sha256` is a parameter `sha : List Nat → List Nat` of the definitions that use it.
* The file system is embedded by its outcomes: `os.Create` succeeds for the file names that
  a parameter `create` tells; an operation on the `nil` file handle fails; writes to and
  reads of a created file succeed.
-/

namespace Flash

/-! ## Errors -/

/-- The errors that the embedded functions return. -/
inductive Error where
  /-- Corresponds to `fmt.Errorf("packet too small")`. -/
  | packetTooSmall
  /-- Corresponds to `io.EOF`. -/
  | EOF
  /-- Corresponds to `io.ErrUnexpectedEOF`. -/
  | unexpectedEOF
  /-- Corresponds to `fmt.Errorf("not a file info packet")`. -/
  | notFileInfo
  /-- Corresponds to `fmt.Errorf("missing packet %d", seq)`. -/
  | missingPacket (seq : Nat)
  /-- Corresponds to `fmt.Errorf("file integrity check failed")`. -/
  | integrityCheckFailed
  /-- Corresponds to `fmt.Errorf("failed to create output file: %v", err)`. -/
  | createFailed
  /-- Corresponds to `fmt.Errorf("failed to write packet %d: %v", seq, err)`. -/
  | writeFailed (seq : Nat)
  /-- Corresponds to `fmt.Errorf("failed to calculate received file hash: %v", err)`. -/
  | hashReadFailed
  deriving DecidableEq, Repr

/-! ## `encoding/binary`, big-endian -/

/-- Bytes of `binary.BigEndian.PutUint16`. -/
def putUint16 (v : Nat) : List Nat :=
  [v / 2 ^ 8 % 256, v % 256]

/-- Bytes of `binary.BigEndian.PutUint32`. -/
def putUint32 (v : Nat) : List Nat :=
  [v / 2 ^ 24 % 256, v / 2 ^ 16 % 256, v / 2 ^ 8 % 256, v % 256]

/-- Bytes of `binary.BigEndian.PutUint64`. -/
def putUint64 (v : Nat) : List Nat :=
  [v / 2 ^ 56 % 256, v / 2 ^ 48 % 256, v / 2 ^ 40 % 256, v / 2 ^ 32 % 256,
   v / 2 ^ 24 % 256, v / 2 ^ 16 % 256, v / 2 ^ 8 % 256, v % 256]

/-- Value of `binary.BigEndian.Uint16` on two bytes. -/
def beUint16 (b0 b1 : Nat) : Nat :=
  b0 * 2 ^ 8 + b1

/-- Value of `binary.BigEndian.Uint32` on four bytes. -/
def beUint32 (b0 b1 b2 b3 : Nat) : Nat :=
  b0 * 2 ^ 24 + b1 * 2 ^ 16 + b2 * 2 ^ 8 + b3

/-- Value of `binary.BigEndian.Uint64` on eight bytes. -/
def beUint64 (b0 b1 b2 b3 b4 b5 b6 b7 : Nat) : Nat :=
  b0 * 2 ^ 56 + b1 * 2 ^ 48 + b2 * 2 ^ 40 + b3 * 2 ^ 32 +
    b4 * 2 ^ 24 + b5 * 2 ^ 16 + b6 * 2 ^ 8 + b7

/-- Conversion `uint64(x)` of an `int64`. -/
def int64ToUint64 (x : Int) : Nat :=
  (x % 2 ^ 64).toNat

/-- Conversion `int64(u)` of a `uint64`. -/
def uint64ToInt64 (u : Nat) : Int :=
  if u < 2 ^ 63 then (u : Int) else (u : Int) - 2 ^ 64

/-! ## `bytes.Reader`

A reader is embedded by its unread part `r.s[r.i:]`; every function below returns the
unread part that is left. -/

/-- `(*bytes.Reader).Read(b)`, with `b` given by its contents: at the end of the input it
returns `io.EOF` (also when `b` is empty), otherwise it copies `min(len(b), unread)` bytes to
the front of `b`. The result is the new contents of `b` and the unread part. -/
def readerRead (r : List Nat) (b : List Nat) : Except Error (List Nat × List Nat) :=
  if r.length = 0 then .error .EOF
  else
    let n := min b.length r.length
    .ok (r.take n ++ b.drop n, r.drop n)

/-- `io.ReadFull(r, buf)` on a `bytes.Reader` for `len(buf) = n`, `n > 0`, as `binary.Read`
calls it: `io.EOF` when nothing is unread, `io.ErrUnexpectedEOF` when fewer than `n` bytes
are. On success the bytes read are exactly `n`, so that the second arm of the `match` in the
readers below is never taken. -/
def readFull (r : List Nat) (n : Nat) : Except Error (List Nat × List Nat) :=
  if n ≤ r.length then .ok (r.take n, r.drop n)
  else if r.length = 0 then .error .EOF
  else .error .unexpectedEOF

/-- `binary.Read(buf, binary.BigEndian, &x)` for a `uint8` (or `PacketType`). -/
def readUint8 (r : List Nat) : Except Error (Nat × List Nat) :=
  match readFull r 1 with
  | .ok ([b0], rest) => .ok (b0, rest)
  | .ok _ => .error .unexpectedEOF
  | .error e => .error e

/-- `binary.Read(buf, binary.BigEndian, &x)` for a `uint16`. -/
def readUint16 (r : List Nat) : Except Error (Nat × List Nat) :=
  match readFull r 2 with
  | .ok ([b0, b1], rest) => .ok (beUint16 b0 b1, rest)
  | .ok _ => .error .unexpectedEOF
  | .error e => .error e

/-- `binary.Read(buf, binary.BigEndian, &x)` for a `uint32`. -/
def readUint32 (r : List Nat) : Except Error (Nat × List Nat) :=
  match readFull r 4 with
  | .ok ([b0, b1, b2, b3], rest) => .ok (beUint32 b0 b1 b2 b3, rest)
  | .ok _ => .error .unexpectedEOF
  | .error e => .error e

/-- `binary.Read(buf, binary.BigEndian, &x)` for an `int64`. -/
def readInt64 (r : List Nat) : Except Error (Int × List Nat) :=
  match readFull r 8 with
  | .ok ([b0, b1, b2, b3, b4, b5, b6, b7], rest) =>
      .ok (uint64ToInt64 (beUint64 b0 b1 b2 b3 b4 b5 b6 b7), rest)
  | .ok _ => .error .unexpectedEOF
  | .error e => .error e

/-! ## `hash/crc32`, IEEE polynomial -/

/-- The constant `crc32.IEEE`. -/
def IEEE : Nat := 0xedb88320

/-- One round of the inner loop of `simplePopulateTable`. -/
def crcShift (crc : Nat) : Nat :=
  if crc % 2 = 1 then (crc / 2) ^^^ IEEE else crc / 2

/-- Entry `i` of the table built by `simplePopulateTable(IEEE, t)`. -/
def ieeeTable (i : Nat) : Nat :=
  crcShift (crcShift (crcShift (crcShift (crcShift (crcShift (crcShift (crcShift i)))))))

/-- The loop of `simpleUpdate`, on the complemented register. -/
def crcLoop (crc : Nat) (p : List Nat) : Nat :=
  p.foldl (fun c v => ieeeTable ((c % 256) ^^^ v) ^^^ (c / 256)) crc

/-- `crc32.Update(crc, crc32.IEEETable, p)` as `simpleUpdate` computes it (the optimized
variants return the same value): complement, run the loop, complement. A digest of
`crc32.NewIEEE()` starts with the register 0, `Write(p)` replaces the register by this
value, `Sum32()` returns the register. -/
def crcUpdate (crc : Nat) (p : List Nat) : Nat :=
  crcLoop (crc ^^^ 0xffffffff) p ^^^ 0xffffffff

/-- `crc32.ChecksumIEEE(data)`, the IEEE CRC-32 of a byte string. -/
def ChecksumIEEE (data : List Nat) : Nat :=
  crcUpdate 0 data

/-! ## `pkg/packet` -/

/-- The constant `DataPacket`. -/
def DataPacket : Nat := 0
/-- The constant `AckPacket`. -/
def AckPacket : Nat := 1
/-- The constant `NackPacket`. -/
def NackPacket : Nat := 2
/-- The constant `FileInfoPacket`. -/
def FileInfoPacket : Nat := 3
/-- The constant `CompletePacket`. -/
def CompletePacket : Nat := 4

/-- The constant `MaxDataSize`. -/
def MaxDataSize : Nat := 1400

/-- The struct `Packet` (`Typ` is its field `Type`): `Typ` is a `uint8`, `SeqNum` and `Checksum` are `uint32`,
`DataSize` is a `uint16`, `Data` is a byte slice. -/
structure Packet where
  /-- The packet type tag. -/
  Typ : Nat
  /-- The sequence number. -/
  SeqNum : Nat
  /-- The stored checksum. -/
  Checksum : Nat
  /-- The announced payload length. -/
  DataSize : Nat
  /-- The payload. -/
  Data : List Nat
  deriving DecidableEq, Repr

/-- The fields of a packet are in the range of their Go types. -/
def Packet.InRange (p : Packet) : Prop :=
  p.Typ < 2 ^ 8 ∧ p.SeqNum < 2 ^ 32 ∧ p.Checksum < 2 ^ 32 ∧ p.DataSize < 2 ^ 16

/-- `(*Packet).calculateChecksum`: a fresh IEEE digest (register 0) receives `Typ`,
`SeqNum`, `DataSize` in big-endian and then `Data`; `Sum32` is the register. -/
def Packet.calculateChecksum (p : Packet) : Nat :=
  let h := 0
  let h := crcUpdate h [p.Typ % 256]
  let h := crcUpdate h (putUint32 p.SeqNum)
  let h := crcUpdate h (putUint16 p.DataSize)
  let h := crcUpdate h p.Data
  h

/-- `(*Packet).Verify`. -/
def Packet.Verify (p : Packet) : Bool :=
  p.Checksum == p.calculateChecksum

/-- `NewDataPacket`. -/
def NewDataPacket (seqNum : Nat) (data : List Nat) : Packet :=
  let data := if data.length > MaxDataSize then data.take MaxDataSize else data
  let packet : Packet :=
    { Typ := DataPacket, SeqNum := seqNum, Checksum := 0,
      DataSize := data.length % 2 ^ 16, Data := data }
  { packet with Checksum := packet.calculateChecksum }

/-- `NewNackPacket`: the buffer receives each sequence number as a big-endian `uint32`. -/
def NewNackPacket (seqNums : List Nat) : Packet :=
  let buf := seqNums.foldl (fun buf seq => buf ++ putUint32 seq) []
  let packet : Packet :=
    { Typ := NackPacket, SeqNum := 0, Checksum := 0,
      DataSize := buf.length % 2 ^ 16, Data := buf }
  { packet with Checksum := packet.calculateChecksum }

/-- `NewFileInfoPacket`; `filename` is the string as its bytes. -/
def NewFileInfoPacket (filename : List Nat) (fileSize : Int) (fileHash : List Nat) : Packet :=
  let buf : List Nat := []
  let buf := buf ++ putUint16 (filename.length % 2 ^ 16)
  let buf := buf ++ filename
  let buf := buf ++ putUint64 (int64ToUint64 fileSize)
  let buf := buf ++ fileHash
  let packet : Packet :=
    { Typ := FileInfoPacket, SeqNum := 0, Checksum := 0,
      DataSize := buf.length % 2 ^ 16, Data := buf }
  { packet with Checksum := packet.calculateChecksum }

/-- `NewCompletePacket`. -/
def NewCompletePacket : Packet :=
  let packet : Packet :=
    { Typ := CompletePacket, SeqNum := 0, Checksum := 0, DataSize := 0, Data := [] }
  { packet with Checksum := packet.calculateChecksum }

/-- `(*Packet).Serialize`. -/
def Packet.Serialize (p : Packet) : List Nat :=
  let buf : List Nat := []
  let buf := buf ++ [p.Typ % 256]
  let buf := buf ++ putUint32 p.SeqNum
  let buf := buf ++ putUint32 p.Checksum
  let buf := buf ++ putUint16 p.DataSize
  let buf := buf ++ p.Data
  buf

/-- `Deserialize`: the length guard, four `binary.Read`s, then `buf.Read` into a fresh
zeroed slice of `DataSize` bytes, whose error is returned. -/
def Deserialize (data : List Nat) : Except Error Packet :=
  if data.length < 11 then .error .packetTooSmall
  else
    match readUint8 data with
    | .error e => .error e
    | .ok (type, buf) =>
    match readUint32 buf with
    | .error e => .error e
    | .ok (seqNum, buf) =>
    match readUint32 buf with
    | .error e => .error e
    | .ok (checksum, buf) =>
    match readUint16 buf with
    | .error e => .error e
    | .ok (dataSize, buf) =>
    match readerRead buf (List.replicate dataSize 0) with
    | .error e => .error e
    | .ok (data, _) =>
      .ok { Typ := type, SeqNum := seqNum, Checksum := checksum,
            DataSize := dataSize, Data := data }

/-- The loop of `ExtractNackSeqNums`: while at least four bytes are unread, read one
big-endian `uint32` and append it. -/
def extractLoop : List Nat → List Nat
  | b0 :: b1 :: b2 :: b3 :: rest => beUint32 b0 b1 b2 b3 :: extractLoop rest
  | _ => []

/-- `(*Packet).ExtractNackSeqNums`; the `nil` slice is the empty list. -/
def Packet.ExtractNackSeqNums (p : Packet) : List Nat :=
  if p.Typ ≠ NackPacket then []
  else extractLoop p.Data

/-- `(*Packet).ExtractFileInfo`: the error of the `buf.Read` of the file name is returned,
the error of the `buf.Read` of the hash is dropped. -/
def Packet.ExtractFileInfo (p : Packet) : Except Error (List Nat × Int × List Nat) :=
  if p.Typ ≠ FileInfoPacket then .error .notFileInfo
  else
    match readUint16 p.Data with
    | .error e => .error e
    | .ok (filenameLen, buf) =>
    match readerRead buf (List.replicate filenameLen 0) with
    | .error e => .error e
    | .ok (filename, buf) =>
    match readInt64 buf with
    | .error e => .error e
    | .ok (fileSize, buf) =>
      let fileHash :=
        match readerRead buf (List.replicate buf.length 0) with
        | .ok (h, _) => h
        | .error _ => List.replicate buf.length 0
      .ok (filename, fileSize, fileHash)

/-! ## `pkg/transfer`: the sender -/

/-- `(*os.File).Read(buffer)` of a regular file given by its unread content, for a buffer
of `n` bytes: `none` is `io.EOF` at the end of the file, otherwise the next
`min(n, unread)` bytes are returned together with the content left unread. -/
def fileRead (file : List Nat) (n : Nat) : Option (List Nat × List Nat) :=
  if file.length = 0 then none
  else some (file.take n, file.drop n)

/-- The loop of `(*Client).sendFileData`: read up to `MaxDataSize` bytes, build the data
packet with the current `seqNum`, send it, increment `seqNum` (a `uint32`); leave at
`io.EOF`. `sent` collects the packets built so far; `none` is an exhausted fuel. -/
def sendLoop : Nat → List Nat → Nat → List Packet → Option (List Packet)
  | 0, _, _, _ => none
  | fuel + 1, file, seqNum, sent =>
    match fileRead file MaxDataSize with
    | none => some sent
    | some (chunk, file) =>
      let dataPacket := NewDataPacket seqNum chunk
      sendLoop fuel file ((seqNum + 1) % 2 ^ 32) (sent ++ [dataPacket])

/-- `(*Client).sendFileData` on a file given by its content: the packets that are
serialized and written to the connection, in order; the data packets of the loop, which
starts at sequence number 1, and then the packet of `NewCompletePacket`. The loop reads a
non-empty chunk in every round, so that `len(file) + 1` rounds are enough. -/
def sendFileData (file : List Nat) : Option (List Packet) :=
  match sendLoop (file.length + 1) file 1 [] with
  | none => none
  | some sent => some (sent ++ [NewCompletePacket])

/-! ## `pkg/transfer`: the receiver -/

/-- The transfer state of the struct `Server`, as the loop of `Listen` and
`finalizeTransfer` find it. The map `receivedPackets` is a function from the key to the
stored payload, `none` for an absent key; `clientAddr` is `none` for `nil`. `outputFile` is
`false` for the `nil` handle and `true` for the handle of the file that the
`FileInfoPacket` case of `Listen` created: `os.Create` truncates the file and only
`finalizeTransfer` writes it, so that the file is empty when `finalizeTransfer` is entered.
`maxSeqNum` is assigned only in the `FileInfoPacket` case, which goes on with the loop only
when `os.Create` has succeeded; `created` records this. -/
structure Server where
  /-- The map `receivedPackets`. -/
  receivedPackets : Nat → Option (List Nat)
  /-- The field `expectedSeqNum`, a `uint32`. -/
  expectedSeqNum : Nat
  /-- The field `maxSeqNum`, a `uint32`. -/
  maxSeqNum : Nat
  /-- The field `fileName`, as bytes. -/
  fileName : List Nat
  /-- The field `fileSize`, an `int64`. -/
  fileSize : Int
  /-- The field `fileHash`. -/
  fileHash : List Nat
  /-- The field `clientAddr`. -/
  clientAddr : Option Nat
  /-- The field `outputFile`: `false` for `nil`, `true` for the created, still empty file. -/
  outputFile : Bool
  /-- A state with `maxSeqNum` set has its output file. -/
  created : maxSeqNum ≠ 0 → outputFile = true := by simp

/-- The transfer state that `NewServer` returns. -/
def NewServer : Server :=
  { receivedPackets := fun _ => none, expectedSeqNum := 0, maxSeqNum := 0, fileName := [],
    fileSize := 0, fileHash := [], clientAddr := none, outputFile := false }

/-- The `case packet.DataPacket` of `(*Server).Listen`:
`s.receivedPackets[pkt.SeqNum] = pkt.Data`. -/
def storeData (s : Server) (pkt : Packet) : Server :=
  { s with receivedPackets := fun k => if k = pkt.SeqNum then some pkt.Data
                                       else s.receivedPackets k }

/-- The scan loop of `(*Server).nackSender`, `for seq := ...; seq <= s.maxSeqNum; seq++`
on a `uint32`: an absent sequence number is appended, and the loop is left when 50 are
collected. `none` is an exhausted fuel. -/
def nackScan (s : Server) : Nat → Nat → List Nat → Option (List Nat)
  | 0, _, _ => none
  | fuel + 1, seq, missingSeqNums =>
    if seq ≤ s.maxSeqNum then
      match s.receivedPackets seq with
      | none =>
        let missingSeqNums := missingSeqNums ++ [seq]
        if missingSeqNums.length ≥ 50 then some missingSeqNums
        else nackScan s fuel ((seq + 1) % 2 ^ 32) missingSeqNums
      | some _ => nackScan s fuel ((seq + 1) % 2 ^ 32) missingSeqNums
    else some missingSeqNums

/-- One tick of `(*Server).nackSender`: nothing is scanned when `maxSeqNum` is 0; otherwise
the scan starts at `expectedSeqNum` with the empty list, and a NACK packet is built (then
serialized and written to `clientAddr`) when the list is not empty and `clientAddr` is not
`nil`. The result is the packet sent, if any; the outer `none` is an exhausted fuel. -/
def nackTick (s : Server) (fuel : Nat) : Option (Option Packet) :=
  if s.maxSeqNum = 0 then some none
  else
    match nackScan s fuel s.expectedSeqNum [] with
    | none => none
    | some missingSeqNums =>
      if missingSeqNums.length > 0 ∧ s.clientAddr ≠ none then
        some (some (NewNackPacket missingSeqNums))
      else some none

/-- `compareHashes`: the length check, then the comparison byte by byte. -/
def compareHashes (hash1 hash2 : List Nat) : Bool :=
  if hash1.length ≠ hash2.length then false
  else (List.range hash1.length).all (fun i => hash1.getD i 0 == hash2.getD i 0)

/-- The write loop of `(*Server).finalizeTransfer`,
`for seq := uint32(1); seq <= s.maxSeqNum; seq++`: an absent `seq` returns the
missing-packet error; otherwise the payload stored under `seq` is written to the output
file, which fails on the `nil` handle and is taken to succeed on the created file. The
result is what has been written to the output file and the error, if any; `none` is an
exhausted fuel. -/
def writeLoop (s : Server) : Nat → Nat → List Nat → Option (List Nat × Option Error)
  | 0, _, _ => none
  | fuel + 1, seq, written =>
    if seq ≤ s.maxSeqNum then
      match s.receivedPackets seq with
      | none => some (written, some (.missingPacket seq))
      | some data =>
        if s.outputFile = true then
          writeLoop s fuel ((seq + 1) % 2 ^ 32) (written ++ data)
        else some (written, some (.writeFailed seq))
    else some (written, none)

/-- `(*Server).finalizeTransfer`: the write loop; then the file is read back from its
start into the SHA-256 `sha`, which fails on the `nil` handle and is taken to succeed on
the created file, where it reads what the loop has written; then the hash is compared with
`fileHash`. The result is what has been written to the output file and the returned error
(`none` for `nil`); the outer `none` is an exhausted fuel. -/
def finalizeTransfer (sha : List Nat → List Nat) (s : Server) (fuel : Nat) :
    Option (List Nat × Option Error) :=
  match writeLoop s fuel 1 [] with
  | none => none
  | some (written, some err) => some (written, some err)
  | some (written, none) =>
    if s.outputFile = true then
      let receivedHash := sha written
      if !compareHashes s.fileHash receivedHash then
        some (written, some .integrityCheckFailed)
      else some (written, none)
    else some (written, some .hashReadFailed)

/-- What the loop of `(*Server).Listen` does after one round: it goes on with the next
datagram, it returns the result of `finalizeTransfer`, or it returns an error. -/
inductive Round where
  /-- The loop goes on (`continue`, or the end of the `switch`). -/
  | next (s : Server)
  /-- The statement `return s.finalizeTransfer()` is reached. -/
  | finalize (s : Server)
  /-- The statement `return fmt.Errorf(...)` is reached. -/
  | failed (e : Error)

/-- One round of the loop of `(*Server).Listen` for a datagram that `ReadFromUDP` received
from `clientAddr` into the buffer of 2048 bytes: a datagram that does not parse or does not
verify is skipped; otherwise `clientAddr` is recorded and the packet is dispatched on its
type. The `FileInfoPacket` case sets the file fields, `maxSeqNum` (`int64` arithmetic,
converted to `uint32`) and `expectedSeqNum`, and creates the output file: `create` tells
for which file names `os.Create` succeeds, and `Listen` returns the error when it fails.
The `DataPacket` case stores the payload; the `CompletePacket` case finalizes; any other
type does nothing. -/
def listenStep (create : List Nat → Bool) (s : Server) (datagram : List Nat)
    (clientAddr : Nat) : Round :=
  match Deserialize (datagram.take 2048) with
  | .error _ => .next s
  | .ok pkt =>
    if !pkt.Verify then .next s
    else
      let s := { s with clientAddr := some clientAddr }
      if pkt.Typ = FileInfoPacket then
        match pkt.ExtractFileInfo with
        | .error _ => .next s
        | .ok (fileName, fileSize, fileHash) =>
          if create fileName = true then
            .next { s with
              fileName := fileName
              fileSize := fileSize
              fileHash := fileHash
              maxSeqNum :=
                ((Int.tdiv (uint64ToInt64 (int64ToUint64 (fileSize + 1400 - 1))) 1400) %
                  2 ^ 32).toNat
              expectedSeqNum := 1
              outputFile := true
              created := fun _ => rfl }
          else .failed .createFailed
      else if pkt.Typ = DataPacket then .next (storeData s pkt)
      else if pkt.Typ = CompletePacket then .finalize s
      else .next s

/-- The loop of `(*Server).Listen` on the datagrams that arrive, each with its source
address, in order: the state when the datagrams are used up, the state with which
`finalizeTransfer` is called, or the error that is returned. -/
def Listen (create : List Nat → Bool) (s : Server) : List (List Nat × Nat) → Round
  | [] => .next s
  | (datagram, clientAddr) :: rest =>
    match listenStep create s datagram clientAddr with
    | .next s => Listen create s rest
    | .finalize s => .finalize s
    | .failed e => .failed e

/-! ## Lemmas on the big-endian codec and the reader -/

theorem beUint16_putUint16 (v : Nat) (h : v < 2 ^ 16) :
    beUint16 (v / 2 ^ 8 % 256) (v % 256) = v := by
  unfold beUint16
  omega

theorem beUint32_putUint32 (v : Nat) (h : v < 2 ^ 32) :
    beUint32 (v / 2 ^ 24 % 256) (v / 2 ^ 16 % 256) (v / 2 ^ 8 % 256) (v % 256) = v := by
  unfold beUint32
  omega

theorem beUint64_putUint64 (v : Nat) (h : v < 2 ^ 64) :
    beUint64 (v / 2 ^ 56 % 256) (v / 2 ^ 48 % 256) (v / 2 ^ 40 % 256) (v / 2 ^ 32 % 256)
      (v / 2 ^ 24 % 256) (v / 2 ^ 16 % 256) (v / 2 ^ 8 % 256) (v % 256) = v := by
  unfold beUint64
  omega

theorem uint64ToInt64_int64ToUint64 (x : Int) (h1 : -(2 ^ 63) ≤ x) (h2 : x < 2 ^ 63) :
    uint64ToInt64 (int64ToUint64 x) = x := by
  unfold uint64ToInt64 int64ToUint64
  split <;> omega

theorem int64ToUint64_lt (x : Int) : int64ToUint64 x < 2 ^ 64 := by
  unfold int64ToUint64
  omega

theorem readUint8_cons (b : Nat) (rest : List Nat) :
    readUint8 (b :: rest) = .ok (b, rest) := by
  simp [readUint8, readFull]

theorem readUint16_putUint16 (v : Nat) (h : v < 2 ^ 16) (rest : List Nat) :
    readUint16 (putUint16 v ++ rest) = .ok (v, rest) := by
  have := beUint16_putUint16 v h
  simp [readUint16, readFull, putUint16]
  simpa using this

theorem readUint32_putUint32 (v : Nat) (h : v < 2 ^ 32) (rest : List Nat) :
    readUint32 (putUint32 v ++ rest) = .ok (v, rest) := by
  have := beUint32_putUint32 v h
  simp [readUint32, readFull, putUint32]
  simpa using this

theorem readInt64_putUint64 (x : Int) (h1 : -(2 ^ 63) ≤ x) (h2 : x < 2 ^ 63)
    (rest : List Nat) :
    readInt64 (putUint64 (int64ToUint64 x) ++ rest) = .ok (x, rest) := by
  have h := beUint64_putUint64 (int64ToUint64 x) (int64ToUint64_lt x)
  have h3 := uint64ToInt64_int64ToUint64 x h1 h2
  simp only [readInt64, readFull, putUint64, List.cons_append, List.nil_append,
    List.length_cons]
  simp only [Nat.reducePow] at h ⊢
  simp [h, h3]

/-- Reading into a zeroed slice as long as a prefix of a non-empty unread part returns the
prefix and leaves the rest. -/
theorem readerRead_front (a rest : List Nat) (h : (a ++ rest).length ≠ 0) :
    readerRead (a ++ rest) (List.replicate a.length 0) = .ok (a, rest) := by
  have h2 : ¬ (a.length + rest.length = 0) := by simpa using h
  simp only [readerRead, List.length_replicate, List.length_append, h2, if_false,
    Nat.min_def, Nat.le_add_right, if_true, List.take_left, List.drop_left]
  simp

/-! ## `Serialize` and `Deserialize` -/

theorem Serialize_eq (p : Packet) :
    p.Serialize =
      (p.Typ % 256) :: (putUint32 p.SeqNum ++ (putUint32 p.Checksum ++
        (putUint16 p.DataSize ++ p.Data))) := by
  simp [Packet.Serialize]

/-- The four header reads of `Deserialize` succeed on every input of at least 11 bytes, so
that the result is the result of the final `buf.Read`. -/
theorem Deserialize_header (t s0 s1 s2 s3 c0 c1 c2 c3 d0 d1 : Nat) (body : List Nat) :
    Deserialize (t :: s0 :: s1 :: s2 :: s3 :: c0 :: c1 :: c2 :: c3 :: d0 :: d1 :: body) =
      match readerRead body (List.replicate (beUint16 d0 d1) 0) with
      | .error e => .error e
      | .ok (data, _) =>
        .ok { Typ := t, SeqNum := beUint32 s0 s1 s2 s3, Checksum := beUint32 c0 c1 c2 c3,
              DataSize := beUint16 d0 d1, Data := data } := by
  simp [Deserialize, readUint8, readUint32, readUint16, readFull]

/-- Every input of at least 11 bytes splits into its 11 header bytes and a body. -/
theorem exists_header (b : List Nat) (h : 11 ≤ b.length) :
    ∃ t s0 s1 s2 s3 c0 c1 c2 c3 d0 d1 body,
      b = t :: s0 :: s1 :: s2 :: s3 :: c0 :: c1 :: c2 :: c3 :: d0 :: d1 :: body := by
  match b, h with
  | t :: s0 :: s1 :: s2 :: s3 :: c0 :: c1 :: c2 :: c3 :: d0 :: d1 :: body, _ =>
    exact ⟨t, s0, s1, s2, s3, c0, c1, c2, c3, d0, d1, body, rfl⟩

/-- On an input of exactly 11 bytes the final `buf.Read` of `Deserialize` is at the end of
the reader and the function returns `io.EOF`. -/
theorem Deserialize_eleven (b : List Nat) (h : b.length = 11) :
    Deserialize b = .error .EOF := by
  obtain ⟨t, s0, s1, s2, s3, c0, c1, c2, c3, d0, d1, body, rfl⟩ :=
    exists_header b (by omega)
  have hb : body = [] := by
    simp at h
    exact h
  subst hb
  rw [Deserialize_header]
  simp [readerRead]

/-- `Deserialize` fails exactly on the inputs of at most 11 bytes. -/
theorem Deserialize_error_iff (b : List Nat) :
    (∃ e, Deserialize b = .error e) ↔ b.length ≤ 11 := by
  constructor
  · rintro ⟨e, he⟩
    by_contra hlen
    obtain ⟨t, s0, s1, s2, s3, c0, c1, c2, c3, d0, d1, body, rfl⟩ :=
      exists_header b (by omega)
    rw [Deserialize_header] at he
    simp only [List.length_cons] at hlen
    have hbody : body.length ≠ 0 := by omega
    simp [readerRead, hbody] at he
  · intro hlen
    rcases Nat.lt_or_ge b.length 11 with h | h
    · exact ⟨.packetTooSmall, by simp [Deserialize, h]⟩
    · exact ⟨.EOF, Deserialize_eleven b (by omega)⟩

/-- A packet returned by `Deserialize` has `DataSize` equal to the big-endian value of
the bytes 9 and 10 of the input, and its `Data` has `DataSize` bytes. -/
theorem Deserialize_ok_size (b : List Nat) (p : Packet) (h : Deserialize b = .ok p) :
    p.DataSize = beUint16 (b.getD 9 0) (b.getD 10 0) ∧ p.Data.length = p.DataSize := by
  have hlen : 11 ≤ b.length := by
    by_contra hlt
    simp [Deserialize, Nat.lt_of_not_le hlt] at h
  obtain ⟨t, s0, s1, s2, s3, c0, c1, c2, c3, d0, d1, body, rfl⟩ := exists_header b hlen
  rw [Deserialize_header] at h
  by_cases hbody : body.length = 0
  · simp [readerRead, hbody] at h
  · simp only [readerRead, hbody, if_false] at h
    injection h with h
    subst h
    simp

/-- Round trip of a packet with a non-empty payload of `DataSize` bytes. -/
theorem Deserialize_Serialize_nonempty (p : Packet) (hr : p.InRange)
    (hl : p.Data.length = p.DataSize) (hne : p.Data ≠ []) :
    Deserialize p.Serialize = .ok p := by
  obtain ⟨h1, h2, h3, h4⟩ := hr
  have e1 := beUint32_putUint32 p.SeqNum h2
  have e2 := beUint32_putUint32 p.Checksum h3
  have e3 := beUint16_putUint16 p.DataSize h4
  have hpos : p.Data.length ≠ 0 := by
    intro h0
    exact hne (List.length_eq_zero.mp h0)
  rw [Serialize_eq]
  simp only [putUint32, putUint16, List.cons_append, List.nil_append]
  rw [Deserialize_header, e1, e2, e3]
  simp only [readerRead, hpos, if_false]
  have hm : p.Typ % 256 = p.Typ := Nat.mod_eq_of_lt h1
  have ht : List.take p.DataSize p.Data = p.Data := by
    rw [← hl]
    exact List.take_length _
  cases p
  simp_all

/-- Round trip fails for every packet with an empty payload. -/
theorem Deserialize_Serialize_empty (p : Packet) (he : p.Data = []) :
    Deserialize p.Serialize = .error .EOF := by
  apply Deserialize_eleven
  rw [Serialize_eq]
  simp [putUint32, putUint16, he]

/-! ## The checksum -/

theorem crcUpdate_append (crc : Nat) (a b : List Nat) :
    crcUpdate (crcUpdate crc a) b = crcUpdate crc (a ++ b) := by
  unfold crcUpdate crcLoop
  rw [List.foldl_append, Nat.xor_assoc, Nat.xor_self, Nat.xor_zero]

/-- The streamed digest of `calculateChecksum` is the one-shot IEEE CRC-32 of the
concatenated input. -/
theorem calculateChecksum_eq (p : Packet) :
    p.calculateChecksum =
      ChecksumIEEE ((p.Typ % 256) :: (putUint32 p.SeqNum ++ (putUint16 p.DataSize ++ p.Data))) := by
  simp only [Packet.calculateChecksum, ChecksumIEEE, crcUpdate_append]
  simp

/-- The embedded CRC-32 has the check value of CRC-32/IEEE on the string `123456789`. -/
theorem ChecksumIEEE_check :
    ChecksumIEEE [49, 50, 51, 52, 53, 54, 55, 56, 57] = 0xcbf43926 := by
  simp [ChecksumIEEE, crcUpdate, crcLoop, ieeeTable, crcShift, IEEE]

/-- The datagram of the Complete packet. -/
theorem Serialize_NewCompletePacket :
    NewCompletePacket.Serialize = [4, 0, 0, 0, 0, 105, 35, 251, 109, 0, 0] := by
  simp [Packet.Serialize, NewCompletePacket, Packet.calculateChecksum, CompletePacket,
    putUint32, putUint16, crcUpdate, crcLoop, ieeeTable, crcShift, IEEE]

/-! ## The NACK payload -/

theorem foldl_putUint32 (seqNums : List Nat) (acc : List Nat) :
    seqNums.foldl (fun buf seq => buf ++ putUint32 seq) acc =
      acc ++ seqNums.foldl (fun buf seq => buf ++ putUint32 seq) [] := by
  induction seqNums generalizing acc with
  | nil => simp
  | cons s ss ih =>
    simp only [List.foldl_cons, List.nil_append]
    rw [ih (acc ++ putUint32 s), ih (putUint32 s), List.append_assoc]

theorem extractLoop_putUint32 (v : Nat) (h : v < 2 ^ 32) (rest : List Nat) :
    extractLoop (putUint32 v ++ rest) = v :: extractLoop rest := by
  have := beUint32_putUint32 v h
  simp only [putUint32, List.cons_append, List.nil_append, extractLoop]
  rw [this]
  rfl

theorem extractLoop_encode (seqNums : List Nat) (h : ∀ s ∈ seqNums, s < 2 ^ 32) :
    extractLoop (seqNums.foldl (fun buf seq => buf ++ putUint32 seq) []) = seqNums := by
  induction seqNums with
  | nil => simp [extractLoop]
  | cons s ss ih =>
    simp only [List.foldl_cons, List.nil_append]
    rw [foldl_putUint32, extractLoop_putUint32 s (h s (List.mem_cons_self s ss))]
    rw [ih (fun x hx => h x (List.mem_cons_of_mem s hx))]

/-- The payload of a NACK for `n` sequence numbers has `4 * n` bytes. -/
theorem length_foldl_putUint32 (seqNums : List Nat) :
    (seqNums.foldl (fun buf seq => buf ++ putUint32 seq) []).length = 4 * seqNums.length := by
  induction seqNums with
  | nil => simp
  | cons s ss ih =>
    simp only [List.foldl_cons, List.nil_append]
    rw [foldl_putUint32, List.length_append, ih]
    simp [putUint32]
    omega

/-! ## Claims on the packet codec -/

/-- C1 (defect in the code): the packet built by `NewCompletePacket` has a payload of exactly
`DataSize` (zero) bytes, and `Deserialize` of its serialization returns the error `io.EOF`
instead of the packet. -/
theorem C1_complete_roundtrip_fails :
    NewCompletePacket.Data.length = NewCompletePacket.DataSize ∧
      Deserialize NewCompletePacket.Serialize = .error .EOF :=
  ⟨rfl, Deserialize_Serialize_empty NewCompletePacket rfl⟩

/-- C2 (defect in the code): the 11-byte datagram of a Complete packet is not shorter than
11 bytes, and `Deserialize` returns the error `io.EOF` on it. -/
theorem C2_eleven_bytes_rejected :
    ¬ ([4, 0, 0, 0, 0, 105, 35, 251, 109, 0, 0] : List Nat).length < 11 ∧
      Deserialize [4, 0, 0, 0, 0, 105, 35, 251, 109, 0, 0] = .error .EOF :=
  ⟨by decide, Deserialize_eleven _ rfl⟩

/-- C5: `Verify` holds exactly when the stored checksum is the IEEE CRC-32 of
`Type` (1 byte), `SeqNum` (4 bytes, big-endian), `DataSize` (2 bytes, big-endian) and `Data`
in this order; and replacing the stored checksum does not change the recomputed value. -/
theorem C5_verify_iff_crc (p : Packet) :
    (p.Verify = true ↔
      p.Checksum =
        ChecksumIEEE ([p.Typ % 256] ++ putUint32 p.SeqNum ++ putUint16 p.DataSize ++ p.Data)) ∧
    ∀ c : Nat, ({ p with Checksum := c } : Packet).calculateChecksum = p.calculateChecksum := by
  constructor
  · rw [Packet.Verify, calculateChecksum_eq]
    simp
  · intro c
    rfl

/-- C6: every packet returned by `NewDataPacket`, `NewNackPacket`, `NewFileInfoPacket` and
`NewCompletePacket` passes `Verify`. -/
theorem C6_constructors_verify :
    (∀ (seqNum : Nat) (data : List Nat), (NewDataPacket seqNum data).Verify = true) ∧
    (∀ seqNums : List Nat, (NewNackPacket seqNums).Verify = true) ∧
    (∀ (filename : List Nat) (fileSize : Int) (fileHash : List Nat),
      (NewFileInfoPacket filename fileSize fileHash).Verify = true) ∧
    NewCompletePacket.Verify = true := by
  refine ⟨?_, ?_, ?_, ?_⟩
  · intro seqNum data
    simp [NewDataPacket, Packet.Verify, Packet.calculateChecksum]
  · intro seqNums
    simp [NewNackPacket, Packet.Verify, Packet.calculateChecksum]
  · intro filename fileSize fileHash
    simp [NewFileInfoPacket, Packet.Verify, Packet.calculateChecksum]
  · simp [NewCompletePacket, Packet.Verify, Packet.calculateChecksum]

/-- C7: for a packet whose payload has exactly `DataSize` bytes, `Serialize` returns
`11 + DataSize` bytes, all header bytes below 256: byte 0 is `Type`, bytes 1..4 are `SeqNum`
in big-endian, bytes 5..8 are `Checksum` in big-endian, bytes 9..10 are `DataSize` in
big-endian, and the bytes from offset 11 on are `Data`. -/
theorem C7_serialize_layout (p : Packet) (hr : p.InRange) (hl : p.Data.length = p.DataSize) :
    p.Serialize.length = 11 + p.DataSize ∧
    (∀ i, i < 11 → p.Serialize.getD i 0 < 256) ∧
    p.Serialize.getD 0 0 = p.Typ ∧
    p.Serialize.getD 1 0 * 2 ^ 24 + p.Serialize.getD 2 0 * 2 ^ 16 +
      p.Serialize.getD 3 0 * 2 ^ 8 + p.Serialize.getD 4 0 = p.SeqNum ∧
    p.Serialize.getD 5 0 * 2 ^ 24 + p.Serialize.getD 6 0 * 2 ^ 16 +
      p.Serialize.getD 7 0 * 2 ^ 8 + p.Serialize.getD 8 0 = p.Checksum ∧
    p.Serialize.getD 9 0 * 2 ^ 8 + p.Serialize.getD 10 0 = p.DataSize ∧
    p.Serialize.drop 11 = p.Data := by
  obtain ⟨h1, h2, h3, h4⟩ := hr
  rw [Serialize_eq]
  simp only [putUint32, putUint16, List.cons_append, List.nil_append]
  refine ⟨?_, ?_, ?_, ?_, ?_, ?_, ?_⟩
  · simp [hl]
    omega
  · intro i hi
    have : i = 0 ∨ i = 1 ∨ i = 2 ∨ i = 3 ∨ i = 4 ∨ i = 5 ∨ i = 6 ∨ i = 7 ∨ i = 8 ∨
        i = 9 ∨ i = 10 := by omega
    rcases this with h | h | h | h | h | h | h | h | h | h | h <;> subst h <;>
      simp <;> omega
  · simp
    omega
  · simp
    omega
  · simp
    omega
  · simp
    omega
  · simp

/-- Witness of C7 at a data packet with a three-byte payload. -/
theorem C7_serialize_layout_witness :
    (({ Typ := 0, SeqNum := 258, Checksum := 3735928559, DataSize := 3,
        Data := [7, 8, 9] } : Packet).Serialize.length = 11 + 3) ∧
    ({ Typ := 0, SeqNum := 258, Checksum := 3735928559, DataSize := 3,
        Data := [7, 8, 9] } : Packet).Serialize.drop 11 = [7, 8, 9] :=
  have h := C7_serialize_layout
    { Typ := 0, SeqNum := 258, Checksum := 3735928559, DataSize := 3, Data := [7, 8, 9] }
    (by unfold Packet.InRange; decide) (by decide)
  ⟨h.1, h.2.2.2.2.2.2⟩

/-- C8: for at most 50 sequence numbers of 32 bits, `ExtractNackSeqNums` of the packet built
by `NewNackPacket` returns the same list in the same order. -/
theorem C8_nack_roundtrip (seqs : List Nat) (hlen : seqs.length ≤ 50)
    (hr : ∀ s ∈ seqs, s < 2 ^ 32) :
    (NewNackPacket seqs).ExtractNackSeqNums = seqs := by
  have _ := hlen
  simp only [Packet.ExtractNackSeqNums, NewNackPacket, ne_eq, not_true_eq_false, if_false]
  exact extractLoop_encode seqs hr

/-- Witness of C8 at the list `[1, 70000, 4294967295]`. -/
theorem C8_nack_roundtrip_witness :
    (NewNackPacket [1, 70000, 4294967295]).ExtractNackSeqNums = [1, 70000, 4294967295] :=
  C8_nack_roundtrip [1, 70000, 4294967295] (by decide) (by decide)

/-- C9: for a file name of at most 65535 bytes, a file size in the range of `int64` and a
hash of 32 bytes, `ExtractFileInfo` of the packet built by `NewFileInfoPacket` returns no
error and the same name, size and hash. -/
theorem C9_fileinfo_roundtrip (name : List Nat) (size : Int) (hash : List Nat)
    (hname : name.length ≤ 65535) (hlo : -(2 ^ 63) ≤ size) (hhi : size < 2 ^ 63)
    (hhash : hash.length = 32) :
    (NewFileInfoPacket name size hash).ExtractFileInfo = .ok (name, size, hash) := by
  have hmod : name.length % 2 ^ 16 = name.length := Nat.mod_eq_of_lt (by omega)
  have hne : hash.length ≠ 0 := by omega
  simp only [Packet.ExtractFileInfo, NewFileInfoPacket, ne_eq, not_true_eq_false, if_false,
    List.nil_append, List.append_assoc, hmod]
  rw [readUint16_putUint16 name.length (by omega)]
  have hrest : (name ++ (putUint64 (int64ToUint64 size) ++ hash)).length ≠ 0 := by
    simp [putUint64]
  simp only []
  rw [readerRead_front name _ hrest]
  simp only []
  rw [readInt64_putUint64 size hlo hhi]
  simp only []
  have hh : readerRead hash (List.replicate hash.length 0) = .ok (hash, []) := by
    have := readerRead_front hash [] (by simpa using hne)
    simpa using this
  simp only [hh]

/-- Witness of C9 at the empty file name, the size `-1` and the hash `0, 1, ..., 31`. -/
theorem C9_fileinfo_roundtrip_witness :
    (NewFileInfoPacket [] (-1) (List.range 32)).ExtractFileInfo =
      .ok ([], -1, List.range 32) :=
  C9_fileinfo_roundtrip [] (-1) (List.range 32) (by decide) (by decide) (by decide)
    (by decide)

/-! ## The primary transmission -/

theorem sendLoop_eq (fuel : Nat) (file : List Nat) (seqNum : Nat) (sent : List Packet)
    (hfuel : file.length < fuel) (hseq : seqNum < 2 ^ 32) :
    sendLoop fuel file seqNum sent =
      some (sent ++ (List.range ((file.length + 1399) / 1400)).map (fun k =>
        NewDataPacket ((seqNum + k) % 2 ^ 32) ((file.drop (k * 1400)).take 1400))) := by
  induction fuel generalizing file seqNum sent with
  | zero => omega
  | succ fuel ih =>
    by_cases h0 : file.length = 0
    · have hN : (file.length + 1399) / 1400 = 0 := by omega
      simp [sendLoop, fileRead, h0, hN]
    · have hlen : (file.drop 1400).length < fuel := by
        rw [List.length_drop]
        omega
      have hN : (file.length + 1399) / 1400 =
          ((file.drop 1400).length + 1399) / 1400 + 1 := by
        rw [List.length_drop]
        omega
      simp only [sendLoop, fileRead, h0, if_false, MaxDataSize]
      rw [ih (file.drop 1400) _ _ hlen (Nat.mod_lt _ (by norm_num)), hN,
        List.range_succ_eq_map]
      simp only [List.map_cons, List.map_map, List.append_assoc, List.singleton_append,
        Nat.zero_mul, List.drop_zero, Nat.add_zero]
      congr 2
      congr 1
      · rw [Nat.mod_eq_of_lt hseq]
      · apply List.map_congr_left
        intro k _
        simp only [Function.comp, Nat.succ_eq_add_one, List.drop_drop]
        have e1 : ((seqNum + 1) % 2 ^ 32 + k) % 2 ^ 32 = (seqNum + (k + 1)) % 2 ^ 32 := by
          omega
        have e2 : 1400 + k * 1400 = (k + 1) * 1400 := by omega
        rw [e1, e2]

theorem sendFileData_eq (file : List Nat) :
    sendFileData file =
      some ((List.range ((file.length + 1399) / 1400)).map (fun k =>
        NewDataPacket ((1 + k) % 2 ^ 32) ((file.drop (k * 1400)).take 1400)) ++
          [NewCompletePacket]) := by
  unfold sendFileData
  rw [sendLoop_eq (file.length + 1) file 1 [] (Nat.lt_succ_self _) (by norm_num)]
  simp

/-- The fields of a data packet built from a chunk of at most `MaxDataSize` bytes. -/
theorem NewDataPacket_fields (seqNum : Nat) (data : List Nat) (h : data.length ≤ 1400) :
    (NewDataPacket seqNum data).Typ = DataPacket ∧
    (NewDataPacket seqNum data).SeqNum = seqNum ∧
    (NewDataPacket seqNum data).DataSize = data.length ∧
    (NewDataPacket seqNum data).Data = data := by
  have h1 : ¬ data.length > MaxDataSize := by
    unfold MaxDataSize
    omega
  have h2 : data.length % 2 ^ 16 = data.length := Nat.mod_eq_of_lt (by omega)
  simp [NewDataPacket, h1, h2]
  omega

/-- The chunks of 1400 bytes of a file, concatenated, are a prefix of the file. -/
theorem flatten_chunks (file : List Nat) (n : Nat) :
    ((List.range n).map (fun k => (file.drop (k * 1400)).take 1400)).flatten =
      file.take (n * 1400) := by
  induction n with
  | zero => simp
  | succ n ih =>
    rw [List.range_succ, List.map_append, List.flatten_append, ih]
    simp only [List.map_cons, List.map_nil, List.flatten_cons, List.flatten_nil,
      List.append_nil]
    rw [Nat.succ_mul, List.take_add]

/-! ## The receiver: storing, the write loop, the NACK scan -/

theorem foldl_storeData_maxSeqNum (arrivals : List Packet) (s : Server) :
    (arrivals.foldl storeData s).maxSeqNum = s.maxSeqNum := by
  induction arrivals generalizing s with
  | nil => rfl
  | cons a as ih =>
    rw [List.foldl_cons, ih]
    rfl

/-- After the arrivals are stored, a key holds the payload of an arrival with this sequence
number, or its old value when no arrival has this sequence number. -/
theorem foldl_storeData_receivedPackets (arrivals : List Packet) (s : Server) (k : Nat) :
    (∃ p ∈ arrivals, p.SeqNum = k ∧
        (arrivals.foldl storeData s).receivedPackets k = some p.Data) ∨
      ((∀ p ∈ arrivals, p.SeqNum ≠ k) ∧
        (arrivals.foldl storeData s).receivedPackets k = s.receivedPackets k) := by
  induction arrivals generalizing s with
  | nil => simp
  | cons a as ih =>
    rw [List.foldl_cons]
    rcases ih (storeData s a) with ⟨p, hp, hk, hv⟩ | ⟨hall, hv⟩
    · exact Or.inl ⟨p, List.mem_cons_of_mem a hp, hk, hv⟩
    · by_cases ha : a.SeqNum = k
      · refine Or.inl ⟨a, List.mem_cons_self a as, ha, ?_⟩
        rw [hv]
        simp [storeData, ha]
      · refine Or.inr ⟨?_, ?_⟩
        · intro p hp
          rcases List.mem_cons.mp hp with rfl | hp
          · exact ha
          · exact hall p hp
        · rw [hv]
          have : ¬ k = a.SeqNum := fun h => ha h.symm
          simp [storeData, this]

/-- The write loop runs through a stretch `seq, ..., seq + n` of present sequence numbers
and appends their payloads in ascending order. -/
theorem writeLoop_run (s : Server) (hmax : s.maxSeqNum < 2 ^ 32)
    (hopen : s.outputFile = true) (n : Nat) :
    ∀ (seq : Nat) (out : List Nat) (fuel : Nat), seq + n ≤ s.maxSeqNum →
      (∀ k, seq ≤ k → k ≤ seq + n → s.receivedPackets k ≠ none) →
      writeLoop s (n + 1 + fuel) seq out =
        writeLoop s fuel ((seq + n + 1) % 2 ^ 32)
          (out ++ ((List.range' seq (n + 1)).map
            (fun k => (s.receivedPackets k).getD [])).flatten) := by
  induction n with
  | zero =>
    intro seq out fuel hle hpres
    have hseq : seq ≤ s.maxSeqNum := by omega
    have hp := hpres seq (Nat.le_refl _) (by omega)
    rw [show 0 + 1 + fuel = fuel + 1 by omega]
    cases hrecv : s.receivedPackets seq with
    | none => exact absurd hrecv hp
    | some data => simp [writeLoop, hseq, hrecv, hopen]
  | succ n ih =>
    intro seq out fuel hle hpres
    have hseq : seq ≤ s.maxSeqNum := by omega
    have hp := hpres seq (Nat.le_refl _) (by omega)
    have hmod : (seq + 1) % 2 ^ 32 = seq + 1 := Nat.mod_eq_of_lt (by omega)
    rw [show n + 1 + 1 + fuel = (n + 1 + fuel) + 1 by omega]
    cases hrecv : s.receivedPackets seq with
    | none => exact absurd hrecv hp
    | some data =>
      simp only [writeLoop, hseq, if_true, hrecv, hmod, hopen]
      rw [ih (seq + 1) (out ++ data) fuel (by omega)
        (fun k h1 h2 => hpres k (by omega) (by omega))]
      rw [List.range'_succ seq (n + 1)]
      simp only [List.map_cons, List.flatten_cons, hrecv, Option.getD_some,
        List.append_assoc]
      rw [show seq + 1 + n + 1 = seq + (n + 1) + 1 by omega]

/-- With every sequence number `1..maxSeqNum` present and `maxSeqNum` below the largest
`uint32`, the write loop ends without error on the payloads in ascending order. -/
theorem writeLoop_complete (s : Server) (hmax : s.maxSeqNum < 2 ^ 32 - 1)
    (hpres : ∀ k, 1 ≤ k → k ≤ s.maxSeqNum → s.receivedPackets k ≠ none)
    (fuel : Nat) (hfuel : s.maxSeqNum < fuel) :
    writeLoop s fuel 1 [] =
      some (((List.range' 1 s.maxSeqNum).map
        (fun k => (s.receivedPackets k).getD [])).flatten, none) := by
  rcases Nat.eq_zero_or_pos s.maxSeqNum with h0 | hpos
  · obtain ⟨fuel, rfl⟩ : ∃ g, fuel = g + 1 := ⟨fuel - 1, by omega⟩
    simp [writeLoop, h0]
  · obtain ⟨g, rfl⟩ : ∃ g, fuel = (s.maxSeqNum - 1) + 1 + (g + 1) :=
      ⟨fuel - s.maxSeqNum - 1, by omega⟩
    rw [writeLoop_run s (by omega) (s.created (by omega)) (s.maxSeqNum - 1) 1 [] (g + 1)
      (by omega) (fun k h1 h2 => hpres k h1 (by omega))]
    have e1 : s.maxSeqNum - 1 + 1 = s.maxSeqNum := by omega
    have e2 : (1 + (s.maxSeqNum - 1) + 1) % 2 ^ 32 = s.maxSeqNum + 1 := by omega
    have e3 : ¬ s.maxSeqNum + 1 ≤ s.maxSeqNum := by omega
    rw [e1, e2]
    simp [writeLoop, e3]

/-- With `maxSeqNum` the largest `uint32`, every sequence number `1..maxSeqNum` present and
the key 0 absent, `seq++` wraps to 0 after the last payload and the write loop returns the
error for the missing packet 0. -/
theorem writeLoop_wrap (s : Server) (hmax : s.maxSeqNum = 2 ^ 32 - 1)
    (hpres : ∀ k, 1 ≤ k → k ≤ s.maxSeqNum → s.receivedPackets k ≠ none)
    (hzero : s.receivedPackets 0 = none)
    (fuel : Nat) (hfuel : s.maxSeqNum < fuel) :
    writeLoop s fuel 1 [] =
      some (((List.range' 1 s.maxSeqNum).map
        (fun k => (s.receivedPackets k).getD [])).flatten, some (.missingPacket 0)) := by
  obtain ⟨g, rfl⟩ : ∃ g, fuel = (s.maxSeqNum - 1) + 1 + (g + 1) :=
    ⟨fuel - s.maxSeqNum - 1, by omega⟩
  rw [writeLoop_run s (by omega) (s.created (by omega)) (s.maxSeqNum - 1) 1 [] (g + 1)
    (by omega) (fun k h1 h2 => hpres k h1 (by omega))]
  have e1 : s.maxSeqNum - 1 + 1 = s.maxSeqNum := by omega
  have e2 : (1 + (s.maxSeqNum - 1) + 1) % 2 ^ 32 = 0 := by omega
  rw [e1, e2]
  simp [writeLoop, hzero]

/-- With `j` the smallest absent sequence number in `1..maxSeqNum`, the write loop returns
the error for the missing packet `j`. -/
theorem writeLoop_missing (s : Server) (hmax : s.maxSeqNum < 2 ^ 32) (j : Nat)
    (hj1 : 1 ≤ j) (hj2 : j ≤ s.maxSeqNum) (habs : s.receivedPackets j = none)
    (hpres : ∀ k, 1 ≤ k → k < j → s.receivedPackets k ≠ none)
    (fuel : Nat) (hfuel : j ≤ fuel) :
    writeLoop s fuel 1 [] =
      some (((List.range' 1 (j - 1)).map
        (fun k => (s.receivedPackets k).getD [])).flatten, some (.missingPacket j)) := by
  rcases Nat.eq_or_lt_of_le hj1 with h1 | hgt
  · subst h1
    obtain ⟨g, rfl⟩ : ∃ g, fuel = g + 1 := ⟨fuel - 1, by omega⟩
    simp [writeLoop, hj2, habs]
  · obtain ⟨g, rfl⟩ : ∃ g, fuel = (j - 2) + 1 + (g + 1) := ⟨fuel - j, by omega⟩
    rw [writeLoop_run s hmax (s.created (by omega)) (j - 2) 1 [] (g + 1) (by omega)
      (fun k h1 h2 => hpres k h1 (by omega))]
    have e1 : j - 2 + 1 = j - 1 := by omega
    have e2 : (1 + (j - 2) + 1) % 2 ^ 32 = j := by omega
    rw [e1, e2]
    simp [writeLoop, hj2, habs]

/-- A chunk of the file read by the loop is the slice of the file between its offsets. -/
theorem chunk_eq_slice (f : List Nat) (k : Nat) (hk : k * 1400 < f.length) :
    (f.drop (k * 1400)).take 1400 =
      (f.take (min ((k + 1) * 1400) f.length)).drop (k * 1400) := by
  rw [List.drop_take]
  rcases Nat.le_total ((k + 1) * 1400) f.length with h | h
  · rw [Nat.min_eq_left h]
    congr 1
    omega
  · rw [Nat.min_eq_right h]
    have hl : (f.drop (k * 1400)).length = f.length - k * 1400 := List.length_drop _ _
    rw [List.take_of_length_le (by omega), List.take_of_length_le (by omega)]

/-- The map of a receiver that started with the empty map and stored the data packets of
the primary transmission of `f`, each at least once, in any order. -/
theorem receivedPackets_after (f : List Nat) (hlen : f.length ≤ (2 ^ 32 - 1) * 1400)
    (s : Server) (hs : s.receivedPackets = fun _ => none) (arrivals : List Packet)
    (hsub : ∀ p ∈ arrivals, p ∈ (List.range ((f.length + 1399) / 1400)).map (fun k =>
      NewDataPacket ((1 + k) % 2 ^ 32) ((f.drop (k * 1400)).take 1400)))
    (hall : ∀ p ∈ (List.range ((f.length + 1399) / 1400)).map (fun k =>
      NewDataPacket ((1 + k) % 2 ^ 32) ((f.drop (k * 1400)).take 1400)), p ∈ arrivals) :
    (arrivals.foldl storeData s).receivedPackets 0 = none ∧
    ∀ k, k < (f.length + 1399) / 1400 →
      (arrivals.foldl storeData s).receivedPackets (1 + k) =
        some ((f.drop (k * 1400)).take 1400) := by
  have hN : (f.length + 1399) / 1400 ≤ 2 ^ 32 - 1 := by omega
  have hfield : ∀ p ∈ arrivals, ∃ j, j < (f.length + 1399) / 1400 ∧ p.SeqNum = 1 + j ∧
      p.Data = (f.drop (j * 1400)).take 1400 := by
    intro p hp
    obtain ⟨j, hj, rfl⟩ := List.mem_map.mp (hsub p hp)
    have hj2 : j < (f.length + 1399) / 1400 := List.mem_range.mp hj
    have hc : ((f.drop (j * 1400)).take 1400).length ≤ 1400 := by
      rw [List.length_take]
      exact Nat.min_le_left _ _
    obtain ⟨_, h2, _, h4⟩ := NewDataPacket_fields ((1 + j) % 2 ^ 32) _ hc
    refine ⟨j, hj2, ?_, h4⟩
    rw [h2]
    exact Nat.mod_eq_of_lt (by omega)
  constructor
  · rcases foldl_storeData_receivedPackets arrivals s 0 with ⟨p, hp, hk, _⟩ | ⟨_, hv⟩
    · obtain ⟨j, _, hseq, _⟩ := hfield p hp
      omega
    · rw [hv, hs]
  · intro k hk
    rcases foldl_storeData_receivedPackets arrivals s (1 + k) with
      ⟨p, hp, hseq, hv⟩ | ⟨hnone, _⟩
    · obtain ⟨j, _, hseq2, hdata⟩ := hfield p hp
      have hjk : j = k := by omega
      subst hjk
      rw [hv, hdata]
    · exfalso
      have hmem := hall _ (List.mem_map.mpr ⟨k, List.mem_range.mpr hk, rfl⟩)
      obtain ⟨j, _, hseq2, _⟩ := hfield _ hmem
      have := hnone _ hmem
      have hc : ((f.drop (k * 1400)).take 1400).length ≤ 1400 := by
        rw [List.length_take]
        exact Nat.min_le_left _ _
      obtain ⟨_, h2, _, _⟩ := NewDataPacket_fields ((1 + k) % 2 ^ 32) _ hc
      rw [h2] at this
      exact this (Nat.mod_eq_of_lt (by omega))

/-- The payloads `1..N` of such a receiver, concatenated in ascending order, are the file. -/
theorem reassembled_eq (f : List Nat) (recv : Nat → Option (List Nat))
    (h : ∀ k, k < (f.length + 1399) / 1400 →
      recv (1 + k) = some ((f.drop (k * 1400)).take 1400)) :
    ((List.range' 1 ((f.length + 1399) / 1400)).map
      (fun k => (recv k).getD [])).flatten = f := by
  rw [List.range'_eq_map_range, List.map_map]
  have : (List.range ((f.length + 1399) / 1400)).map
      ((fun k => (recv k).getD []) ∘ fun x => 1 + x) =
      (List.range ((f.length + 1399) / 1400)).map
        (fun k => (f.drop (k * 1400)).take 1400) := by
    apply List.map_congr_left
    intro k hk
    simp [h k (List.mem_range.mp hk)]
  rw [this, flatten_chunks]
  exact List.take_of_length_le (by omega)

/-- `compareHashes` holds exactly for two hashes of the same length and the same bytes. -/
theorem compareHashes_iff (hash1 hash2 : List Nat) :
    compareHashes hash1 hash2 = true ↔
      hash1.length = hash2.length ∧
        ∀ i, i < hash1.length → hash1.getD i 0 = hash2.getD i 0 := by
  unfold compareHashes
  by_cases h : hash1.length = hash2.length
  · simp [h, List.all_eq_true]
  · simp [h]

/-- The result of `finalizeTransfer` when the write loop has ended without error. -/
theorem finalizeTransfer_of_written (sha : List Nat → List Nat) (s : Server) (fuel : Nat)
    (out : List Nat) (h : writeLoop s fuel 1 [] = some (out, none))
    (hopen : s.outputFile = true) :
    finalizeTransfer sha s fuel =
      some (out, if compareHashes s.fileHash (sha out) = true then none
                 else some .integrityCheckFailed) := by
  unfold finalizeTransfer
  rw [h]
  by_cases hc : compareHashes s.fileHash (sha out) = true <;> simp [hc, hopen]

/-- The result of `finalizeTransfer` when the write loop has ended without error and the
output file is the `nil` handle: the error of the hash read. -/
theorem finalizeTransfer_of_nil (sha : List Nat → List Nat) (s : Server) (fuel : Nat)
    (out : List Nat) (h : writeLoop s fuel 1 [] = some (out, none))
    (hnil : s.outputFile = false) :
    finalizeTransfer sha s fuel = some (out, some .hashReadFailed) := by
  unfold finalizeTransfer
  rw [h]
  simp [hnil]

/-- The result of `finalizeTransfer` when the write loop has returned an error. -/
theorem finalizeTransfer_of_error (sha : List Nat → List Nat) (s : Server) (fuel : Nat)
    (out : List Nat) (e : Error) (h : writeLoop s fuel 1 [] = some (out, some e)) :
    finalizeTransfer sha s fuel = some (out, some e) := by
  unfold finalizeTransfer
  rw [h]

/-- Below the largest `uint32` the NACK scan ends and returns the first 50 of the collected
and the absent sequence numbers, in ascending order. -/
theorem nackScan_eq (s : Server) (hmax : s.maxSeqNum < 2 ^ 32 - 1) (n : Nat) :
    ∀ (seq : Nat) (acc : List Nat) (fuel : Nat), n = s.maxSeqNum + 1 - seq →
      acc.length < 50 → n < fuel →
      nackScan s fuel seq acc =
        some ((acc ++ (List.range' seq n).filter
          (fun k => (s.receivedPackets k).isNone)).take 50) := by
  induction n with
  | zero =>
    intro seq acc fuel hn hacc hfuel
    obtain ⟨g, rfl⟩ : ∃ g, fuel = g + 1 := ⟨fuel - 1, by omega⟩
    have hgt : ¬ seq ≤ s.maxSeqNum := by omega
    simp only [nackScan, hgt, if_false, List.range'_zero, List.filter_nil, List.append_nil]
    rw [List.take_of_length_le (by omega)]
  | succ n ih =>
    intro seq acc fuel hn hacc hfuel
    obtain ⟨g, rfl⟩ : ∃ g, fuel = g + 1 := ⟨fuel - 1, by omega⟩
    have hle : seq ≤ s.maxSeqNum := by omega
    have hmod : (seq + 1) % 2 ^ 32 = seq + 1 := Nat.mod_eq_of_lt (by omega)
    rw [List.range'_succ]
    cases hrecv : s.receivedPackets seq with
    | none =>
      by_cases hfull : (acc ++ [seq]).length ≥ 50
      · have hl : (acc ++ [seq]).length = 50 := by
          rw [List.length_append] at hfull ⊢
          simp only [List.length_singleton] at hfull ⊢
          omega
        simp only [nackScan, hle, if_true, hrecv, hfull, List.filter_cons,
          Option.isNone_none]
        rw [show acc ++ seq :: (List.range' (seq + 1) n).filter
              (fun k => (s.receivedPackets k).isNone) =
            (acc ++ [seq]) ++ (List.range' (seq + 1) n).filter
              (fun k => (s.receivedPackets k).isNone) by simp]
        rw [List.take_append_of_le_length (by omega), List.take_of_length_le (by omega)]
      · simp only [nackScan, hle, if_true, hrecv, hfull, if_false, hmod, List.filter_cons,
          Option.isNone_none]
        rw [ih (seq + 1) (acc ++ [seq]) g (by omega) (by omega) (by omega)]
        simp
    | some data =>
      simp only [nackScan, hle, if_true, hrecv, hmod, List.filter_cons, Option.isNone_some]
      rw [ih (seq + 1) acc g (by omega) hacc (by omega)]
      simp

/-- With `maxSeqNum` the largest `uint32` and every key present, the condition
`seq <= s.maxSeqNum` holds for every `uint32` and nothing is appended: the NACK scan does
not end, whatever the fuel. -/
theorem nackScan_diverges (s : Server) (hmax : s.maxSeqNum = 2 ^ 32 - 1)
    (hpres : ∀ k, s.receivedPackets k ≠ none) (fuel : Nat) :
    ∀ (seq : Nat) (acc : List Nat), seq < 2 ^ 32 → nackScan s fuel seq acc = none := by
  induction fuel with
  | zero =>
    intro seq acc _
    rfl
  | succ fuel ih =>
    intro seq acc hseq
    have hle : seq ≤ s.maxSeqNum := by omega
    cases hrecv : s.receivedPackets seq with
    | none => exact absurd hrecv (hpres seq)
    | some data =>
      simp only [nackScan, hle, if_true, hrecv]
      exact ih _ acc (Nat.mod_lt _ (by norm_num))

/-! ## Claims on the transfer engines -/

/-- The last data packet of a file of `(2^32 - 1) * 1400 + 1` bytes has the sequence
number 0. -/
theorem sendFileData_wraps (f : List Nat) (hlen : f.length = (2 ^ 32 - 1) * 1400 + 1) :
    ∃ pkts p, sendFileData f = some pkts ∧ pkts[2 ^ 32 - 1]? = some p ∧
      p.Typ = DataPacket ∧ p.SeqNum = 0 := by
  have hN : (f.length + 1399) / 1400 = 2 ^ 32 := by omega
  have hc : ((f.drop ((2 ^ 32 - 1) * 1400)).take 1400).length ≤ 1400 := by
    rw [List.length_take]
    exact Nat.min_le_left _ _
  obtain ⟨h1, h2, _, _⟩ :=
    NewDataPacket_fields ((1 + (2 ^ 32 - 1)) % 2 ^ 32) _ hc
  refine ⟨_, _, sendFileData_eq f, ?_, h1, h2⟩
  rw [hN, List.getElem?_append_left (by rw [List.length_map, List.length_range]; omega),
    List.getElem?_map, List.getElem?_range (by omega)]
  rfl

/-- C3 (counterexample): a file of `(2^32 - 1) * 1400 + 1` zero bytes is shorter than
`2^32 * 1400` bytes and has `N = 2^32`, and the `N`-th data packet of its primary
transmission is numbered 0, not `N`. -/
theorem C3_counterexample :
    (List.replicate ((2 ^ 32 - 1) * 1400 + 1) 0).length < 2 ^ 32 * 1400 ∧
    ((List.replicate ((2 ^ 32 - 1) * 1400 + 1) 0).length + 1399) / 1400 = 2 ^ 32 ∧
    ∃ pkts p, sendFileData (List.replicate ((2 ^ 32 - 1) * 1400 + 1) 0) = some pkts ∧
      pkts[2 ^ 32 - 1]? = some p ∧ p.Typ = DataPacket ∧ p.SeqNum = 0 := by
  refine ⟨?_, ?_, sendFileData_wraps _ (List.length_replicate _ _)⟩
  · rw [List.length_replicate]
    omega
  · rw [List.length_replicate]
    omega

/-- C3 (amended): for a file `f` of at most `(2^32 - 1) * 1400` bytes and
`N = ceil(len(f) / 1400)`, the primary transmission builds exactly `N` data packets,
followed by the Complete packet; the `k`-th is numbered `k` and carries the bytes
`(k-1) * 1400` up to `min(k * 1400, len(f))` of `f`; and when a receiver with the empty map
and `maxSeqNum = N` stores these packets in any order, each at least once, the output file
that `finalizeTransfer` writes is exactly `f`. -/
theorem C3_transmission_reassembly (sha : List Nat → List Nat) (f : List Nat)
    (hlen : f.length ≤ (2 ^ 32 - 1) * 1400) :
    ∃ data : List Packet,
      sendFileData f = some (data ++ [NewCompletePacket]) ∧
      data.length = (f.length + 1399) / 1400 ∧
      (∀ k, 1 ≤ k → k ≤ data.length →
        ∃ p, data[k - 1]? = some p ∧ p.Typ = DataPacket ∧ p.SeqNum = k ∧
          p.Data = (f.take (min (k * 1400) f.length)).drop ((k - 1) * 1400) ∧
          p.DataSize = p.Data.length) ∧
      ∀ (s : Server) (arrivals : List Packet),
        s.receivedPackets = (fun _ => none) → s.maxSeqNum = data.length →
        (∀ p ∈ arrivals, p ∈ data) → (∀ p ∈ data, p ∈ arrivals) →
        ∀ fuel, data.length < fuel →
          ∃ err, finalizeTransfer sha (arrivals.foldl storeData s) fuel = some (f, err) := by
  have hN : (f.length + 1399) / 1400 ≤ 2 ^ 32 - 1 := by omega
  refine ⟨_, sendFileData_eq f, by simp, ?_, ?_⟩
  · intro k hk1 hk2
    rw [List.length_map, List.length_range] at hk2
    have hc : ((f.drop ((k - 1) * 1400)).take 1400).length ≤ 1400 := by
      rw [List.length_take]
      exact Nat.min_le_left _ _
    obtain ⟨h1, h2, h3, h4⟩ := NewDataPacket_fields ((1 + (k - 1)) % 2 ^ 32) _ hc
    refine ⟨_, ?_, h1, ?_, ?_, ?_⟩
    · rw [List.getElem?_map, List.getElem?_range (by omega)]
      rfl
    · rw [h2]
      omega
    · rw [h4, chunk_eq_slice f (k - 1) (by omega), show k - 1 + 1 = k by omega]
    · rw [h3, h4]
  · intro s arrivals hs hmaxN hsub hall fuel hfuel
    rw [List.length_map, List.length_range] at hmaxN hfuel
    obtain ⟨hzero, hrecv⟩ := receivedPackets_after f hlen s hs arrivals hsub hall
    have hmax2 : (arrivals.foldl storeData s).maxSeqNum = (f.length + 1399) / 1400 := by
      rw [foldl_storeData_maxSeqNum, hmaxN]
    have hpres : ∀ k, 1 ≤ k → k ≤ (arrivals.foldl storeData s).maxSeqNum →
        (arrivals.foldl storeData s).receivedPackets k ≠ none := by
      intro k h1 h2
      have := hrecv (k - 1) (by omega)
      rw [show 1 + (k - 1) = k by omega] at this
      rw [this]
      exact Option.some_ne_none _
    have hcontent := reassembled_eq f (arrivals.foldl storeData s).receivedPackets hrecv
    rw [← hmax2] at hcontent
    rcases Nat.lt_or_ge (arrivals.foldl storeData s).maxSeqNum (2 ^ 32 - 1) with hlt | hge
    · have hw := writeLoop_complete _ hlt hpres fuel (by omega)
      rw [hcontent] at hw
      by_cases hopen : (arrivals.foldl storeData s).outputFile = true
      · exact ⟨_, finalizeTransfer_of_written sha _ fuel f hw hopen⟩
      · exact ⟨_, finalizeTransfer_of_nil sha _ fuel f hw (by simpa using hopen)⟩
    · have hw := writeLoop_wrap _ (by omega) hpres hzero fuel (by omega)
      rw [hcontent] at hw
      unfold finalizeTransfer
      rw [hw]
      exact ⟨_, rfl⟩

/-- Witness of C3 at a file of 4096 bytes: three data packets, the third with 1296 bytes. -/
theorem C3_transmission_reassembly_witness :
    (List.replicate 4096 7).length ≤ (2 ^ 32 - 1) * 1400 ∧
    ∃ data : List Packet,
      sendFileData (List.replicate 4096 7) = some (data ++ [NewCompletePacket]) ∧
      data.length = 3 ∧
      ∃ p, data[2]? = some p ∧ p.SeqNum = 3 ∧ p.Data.length = 1296 := by
  have hl : (List.replicate 4096 7).length = 4096 := List.length_replicate _ _
  refine ⟨by rw [hl]; omega, ?_⟩
  obtain ⟨data, h1, h2, h3, _⟩ :=
    C3_transmission_reassembly (fun _ => []) (List.replicate 4096 7) (by rw [hl]; omega)
  rw [hl] at h2 h3
  have h2n : data.length = 3 := by omega
  obtain ⟨p, hp, _, hseq, hdata, _⟩ := h3 3 (by omega) (by omega)
  refine ⟨data, h1, h2n, p, hp, hseq, ?_⟩
  rw [hdata, List.length_drop, List.length_take, hl]
  omega

/-- C10 (counterexample): in the receiver state with `maxSeqNum = 2^32 - 1`,
`expectedSeqNum = 1`, a known peer and every key of the map present, `maxSeqNum > 0` holds
and the scan of the NACK generator returns for no number of loop rounds. -/
theorem C10_counterexample :
    0 < (2 ^ 32 - 1 : Nat) ∧
    ∀ fuel : Nat,
      nackScan
        { receivedPackets := fun _ => some [], expectedSeqNum := 1,
          maxSeqNum := 2 ^ 32 - 1, fileName := [], fileSize := (2 ^ 32 - 1) * 1400,
          fileHash := [], clientAddr := some 1, outputFile := true } fuel 1 [] = none :=
  ⟨by norm_num, fun fuel =>
    nackScan_diverges _ rfl (fun _ => Option.some_ne_none _) fuel 1 [] (by norm_num)⟩

/-- C10 (amended): in a receiver state with `0 < maxSeqNum < 2^32 - 1`, one pass of the scan
of the NACK generator ends and collects the first `min(50, m)` elements, in ascending
order, of the `m` sequence numbers in `expectedSeqNum..maxSeqNum` that are absent from
`receivedPackets`; a NACK packet is sent only when this list is not empty and the peer
address is known, and it carries this list. -/
theorem C10_nack_pass (s : Server) (hpos : 0 < s.maxSeqNum)
    (hmax : s.maxSeqNum < 2 ^ 32 - 1) (fuel : Nat) (hfuel : s.maxSeqNum + 1 < fuel) :
    ∃ missing : List Nat,
      missing = ((List.range' s.expectedSeqNum (s.maxSeqNum + 1 - s.expectedSeqNum)).filter
        (fun k => (s.receivedPackets k).isNone)).take 50 ∧
      missing.length =
        min 50 ((List.range' s.expectedSeqNum (s.maxSeqNum + 1 - s.expectedSeqNum)).filter
          (fun k => (s.receivedPackets k).isNone)).length ∧
      nackScan s fuel s.expectedSeqNum [] = some missing ∧
      ∃ sent, nackTick s fuel = some sent ∧
        (∀ pkt, sent = some pkt →
          missing ≠ [] ∧ s.clientAddr ≠ none ∧ pkt = NewNackPacket missing ∧
            pkt.ExtractNackSeqNums = missing) ∧
        (sent = none → missing = [] ∨ s.clientAddr = none) := by
  have hscan := nackScan_eq s hmax (s.maxSeqNum + 1 - s.expectedSeqNum) s.expectedSeqNum []
    fuel rfl (by simp) (by omega)
  rw [List.nil_append] at hscan
  refine ⟨_, rfl, List.length_take _ _, hscan, ?_⟩
  have hne : ¬ s.maxSeqNum = 0 := by omega
  have hrange : ∀ x ∈ ((List.range' s.expectedSeqNum
      (s.maxSeqNum + 1 - s.expectedSeqNum)).filter
        (fun k => (s.receivedPackets k).isNone)).take 50, x < 2 ^ 32 := by
    intro x hx
    have h1 := List.mem_of_mem_filter (List.mem_of_mem_take hx)
    rw [List.mem_range'_1] at h1
    omega
  unfold nackTick
  simp only [hne, if_false, hscan]
  split
  · rename_i hcond
    refine ⟨_, rfl, ?_, ?_⟩
    · intro pkt hpkt
      injection hpkt with hpkt
      subst hpkt
      refine ⟨?_, hcond.2, rfl, ?_⟩
      · intro h0
        rw [h0] at hcond
        simp at hcond
      · simp only [Packet.ExtractNackSeqNums, NewNackPacket, ne_eq, not_true_eq_false,
          if_false]
        exact extractLoop_encode _ hrange
    · intro h
      exact absurd h (Option.some_ne_none _)
  · rename_i hcond
    refine ⟨_, rfl, ?_, ?_⟩
    · intro pkt hpkt
      exact absurd hpkt.symm (Option.some_ne_none _)
    · intro _
      by_cases hc : s.clientAddr = none
      · exact Or.inr hc
      · left
        by_contra hm
        exact hcond ⟨List.length_pos.mpr hm, hc⟩

/-- Witness of C10 at a receiver that expects three packets and holds only the second. -/
theorem C10_nack_pass_witness :
    (0 : Nat) < 3 ∧ (3 : Nat) < 2 ^ 32 - 1 ∧
    nackScan
      { receivedPackets := fun k => if k = 2 then some [] else none, expectedSeqNum := 1,
        maxSeqNum := 3, fileName := [], fileSize := 4000, fileHash := [],
        clientAddr := some 7, outputFile := true } 5 1 [] = some [1, 3] := by
  refine ⟨by norm_num, by norm_num, ?_⟩
  obtain ⟨missing, hm, _, hscan, _⟩ := C10_nack_pass
    { receivedPackets := fun k => if k = 2 then some [] else none, expectedSeqNum := 1,
      maxSeqNum := 3, fileName := [], fileSize := 4000, fileHash := [],
      clientAddr := some 7, outputFile := true } (by norm_num) (by norm_num) 5 (by norm_num)
  rw [hscan, hm]
  decide

/-! ## The receive loop -/

theorem crcShift_lt (c : Nat) (h : c < 2 ^ 32) : crcShift c < 2 ^ 32 := by
  unfold crcShift
  split
  · exact Nat.xor_lt_two_pow (by omega) (by norm_num [IEEE])
  · omega

theorem ieeeTable_lt (i : Nat) (h : i < 2 ^ 32) : ieeeTable i < 2 ^ 32 := by
  unfold ieeeTable
  exact crcShift_lt _ (crcShift_lt _ (crcShift_lt _ (crcShift_lt _ (crcShift_lt _
    (crcShift_lt _ (crcShift_lt _ (crcShift_lt _ h)))))))

theorem crcLoop_lt (p : List Nat) (hp : ∀ v ∈ p, v < 256) (c : Nat) (h : c < 2 ^ 32) :
    crcLoop c p < 2 ^ 32 := by
  induction p generalizing c with
  | nil => simpa [crcLoop] using h
  | cons v vs ih =>
    have hv : v < 256 := hp v (List.mem_cons_self v vs)
    have hidx : (c % 256) ^^^ v < 2 ^ 32 :=
      Nat.xor_lt_two_pow (by omega) (by omega)
    have hstep : ieeeTable ((c % 256) ^^^ v) ^^^ (c / 256) < 2 ^ 32 :=
      Nat.xor_lt_two_pow (ieeeTable_lt _ hidx) (by omega)
    have := ih (fun x hx => hp x (List.mem_cons_of_mem v hx)) _ hstep
    simpa [crcLoop] using this

theorem crcUpdate_lt (p : List Nat) (hp : ∀ v ∈ p, v < 256) (c : Nat) (h : c < 2 ^ 32) :
    crcUpdate c p < 2 ^ 32 := by
  unfold crcUpdate
  exact Nat.xor_lt_two_pow
    (crcLoop_lt p hp _ (Nat.xor_lt_two_pow h (by norm_num))) (by norm_num)

/-- The checksum of a packet whose payload consists of bytes is a `uint32`. -/
theorem calculateChecksum_lt (p : Packet) (hp : ∀ v ∈ p.Data, v < 256) :
    p.calculateChecksum < 2 ^ 32 := by
  unfold Packet.calculateChecksum
  refine crcUpdate_lt _ hp _ (crcUpdate_lt _ ?_ _ (crcUpdate_lt _ ?_ _
    (crcUpdate_lt _ ?_ _ (by norm_num))))
  · intro v hv
    simp only [putUint16, List.mem_cons, List.mem_singleton, List.not_mem_nil, or_false] at hv
    omega
  · intro v hv
    simp only [putUint32, List.mem_cons, List.mem_singleton, List.not_mem_nil, or_false] at hv
    omega
  · intro v hv
    simp only [List.mem_singleton] at hv
    omega

/-- A serialized packet with a non-empty payload that fits the receive buffer is parsed
back from the buffer. -/
theorem Deserialize_take_Serialize (p : Packet) (hr : p.InRange)
    (hl : p.Data.length = p.DataSize) (hne : p.Data ≠ []) (hfit : p.Data.length ≤ 2037) :
    Deserialize (p.Serialize.take 2048) = .ok p := by
  have hlen : p.Serialize.length ≤ 2048 := by
    rw [Serialize_eq]
    simp [putUint32, putUint16]
    omega
  rw [List.take_of_length_le hlen]
  exact Deserialize_Serialize_nonempty p hr hl hne

theorem NewDataPacket_Verify (seqNum : Nat) (data : List Nat) :
    (NewDataPacket seqNum data).Verify = true := by
  simp [NewDataPacket, Packet.Verify, Packet.calculateChecksum]

theorem NewFileInfoPacket_Verify (filename : List Nat) (fileSize : Int)
    (fileHash : List Nat) :
    (NewFileInfoPacket filename fileSize fileHash).Verify = true := by
  simp [NewFileInfoPacket, Packet.Verify, Packet.calculateChecksum]

/-- A data packet built from at most 1400 bytes, with a `uint32` sequence number, has its
fields in range. -/
theorem NewDataPacket_InRange (seqNum : Nat) (data : List Nat) (hseq : seqNum < 2 ^ 32)
    (hlen : data.length ≤ 1400) (hbytes : ∀ v ∈ data, v < 256) :
    (NewDataPacket seqNum data).InRange := by
  obtain ⟨h1, h2, h3, h4⟩ := NewDataPacket_fields seqNum data hlen
  refine ⟨?_, ?_, ?_, ?_⟩
  · rw [h1]
    norm_num [DataPacket]
  · rw [h2]
    exact hseq
  · have hd : ¬ data.length > MaxDataSize := by
      unfold MaxDataSize
      omega
    have hc := calculateChecksum_lt
      { Typ := DataPacket, SeqNum := seqNum, Checksum := 0,
        DataSize := data.length % 2 ^ 16, Data := data } hbytes
    simpa [NewDataPacket, hd] using hc
  · rw [h3]
    omega

/-- The round of the receive loop for a datagram that parses to a verified data packet:
the payload is stored, whatever the state. -/
theorem listenStep_data (create : List Nat → Bool) (s : Server) (datagram : List Nat)
    (clientAddr : Nat) (pkt : Packet)
    (hdes : Deserialize (datagram.take 2048) = .ok pkt) (hver : pkt.Verify = true)
    (htyp : pkt.Typ = DataPacket) :
    listenStep create s datagram clientAddr =
      .next (storeData { s with clientAddr := some clientAddr } pkt) := by
  have h1 : ¬ pkt.Typ = FileInfoPacket := by
    rw [htyp]
    decide
  unfold listenStep
  rw [hdes]
  simp only [hver, Bool.not_true, Bool.false_eq_true, if_false]
  rw [if_neg h1, if_pos htyp]

/-- The round of the receive loop for a datagram that parses to a verified packet of type
`CompletePacket`: `finalizeTransfer` is called, whatever the state. -/
theorem listenStep_complete (create : List Nat → Bool) (s : Server) (datagram : List Nat)
    (clientAddr : Nat) (pkt : Packet)
    (hdes : Deserialize (datagram.take 2048) = .ok pkt) (hver : pkt.Verify = true)
    (htyp : pkt.Typ = CompletePacket) :
    listenStep create s datagram clientAddr =
      .finalize { s with clientAddr := some clientAddr } := by
  have h1 : ¬ pkt.Typ = FileInfoPacket := by
    rw [htyp]
    decide
  have h2 : ¬ pkt.Typ = DataPacket := by
    rw [htyp]
    decide
  unfold listenStep
  rw [hdes]
  simp only [hver, Bool.not_true, Bool.false_eq_true, if_false]
  rw [if_neg h1, if_neg h2, if_pos htyp]

/-- The round of the receive loop for a datagram that parses to a verified file-info
packet leaves the map `receivedPackets` as it is, or returns the error of `os.Create`. -/
theorem listenStep_fileInfo (create : List Nat → Bool) (s : Server) (datagram : List Nat)
    (clientAddr : Nat) (pkt : Packet) (hdes : Deserialize (datagram.take 2048) = .ok pkt)
    (hver : pkt.Verify = true) (htyp : pkt.Typ = FileInfoPacket) :
    (∃ s', listenStep create s datagram clientAddr = .next s' ∧
      s'.receivedPackets = s.receivedPackets) ∨
    listenStep create s datagram clientAddr = .failed .createFailed := by
  unfold listenStep
  rw [hdes]
  simp only [hver, Bool.not_true, Bool.false_eq_true, if_false]
  rw [if_pos htyp]
  cases pkt.ExtractFileInfo with
  | error e => exact Or.inl ⟨_, rfl, rfl⟩
  | ok r =>
    obtain ⟨fileName, fileSize, fileHash⟩ := r
    by_cases hc : create fileName = true
    · simp only [hc, if_true]
      exact Or.inl ⟨_, rfl, rfl⟩
    · simp only [hc, if_false]
      exact Or.inr rfl

/-- The round of the receive loop for a datagram that parses to a verified file-info
packet whose payload is extracted and whose output file is created: the file fields,
`maxSeqNum`, `expectedSeqNum` and `outputFile` are set. -/
theorem listenStep_fileInfo_ok (create : List Nat → Bool) (s : Server)
    (datagram : List Nat) (clientAddr : Nat)
    (pkt : Packet) (fileName : List Nat) (fileSize : Int) (fileHash : List Nat)
    (hdes : Deserialize (datagram.take 2048) = .ok pkt) (hver : pkt.Verify = true)
    (htyp : pkt.Typ = FileInfoPacket)
    (hex : pkt.ExtractFileInfo = .ok (fileName, fileSize, fileHash))
    (hcreate : create fileName = true) :
    listenStep create s datagram clientAddr =
      .next { receivedPackets := s.receivedPackets, expectedSeqNum := 1,
              maxSeqNum :=
                ((Int.tdiv (uint64ToInt64 (int64ToUint64 (fileSize + 1400 - 1))) 1400) %
                  2 ^ 32).toNat,
              fileName := fileName, fileSize := fileSize, fileHash := fileHash,
              clientAddr := some clientAddr, outputFile := true } := by
  unfold listenStep
  rw [hdes]
  simp only [hver, Bool.not_true, Bool.false_eq_true, if_false]
  rw [if_pos htyp, hex]
  simp only [hcreate, if_true]

/-- The payload of a file-info packet is read back by `ExtractFileInfo`. -/
theorem ExtractFileInfo_NewFileInfoPacket (name : List Nat) (size : Int) (hash : List Nat)
    (hname : name.length ≤ 65535) (hlo : -(2 ^ 63) ≤ size) (hhi : size < 2 ^ 63)
    (hhash : hash ≠ []) :
    (NewFileInfoPacket name size hash).ExtractFileInfo = .ok (name, size, hash) := by
  have hmod : name.length % 2 ^ 16 = name.length := Nat.mod_eq_of_lt (by omega)
  have hne : hash.length ≠ 0 := fun h => hhash (List.length_eq_zero.mp h)
  simp only [Packet.ExtractFileInfo, NewFileInfoPacket, ne_eq, not_true_eq_false, if_false,
    List.nil_append, List.append_assoc, hmod]
  rw [readUint16_putUint16 name.length (by omega)]
  have hrest : (name ++ (putUint64 (int64ToUint64 size) ++ hash)).length ≠ 0 := by
    simp [putUint64]
  simp only []
  rw [readerRead_front name _ hrest]
  simp only []
  rw [readInt64_putUint64 size hlo hhi]
  simp only []
  have hh : readerRead hash (List.replicate hash.length 0) = .ok (hash, []) := by
    have := readerRead_front hash [] (by simpa using hne)
    simpa using this
  simp only [hh]

/-- The datagram of a file-info packet that fits the receive buffer is parsed back from
the buffer. -/
theorem Deserialize_NewFileInfoPacket (name : List Nat) (size : Int) (hash : List Nat)
    (hfit : name.length + hash.length ≤ 2027) (hn : ∀ v ∈ name, v < 256)
    (hh : ∀ v ∈ hash, v < 256) :
    Deserialize ((NewFileInfoPacket name size hash).Serialize.take 2048) =
      .ok (NewFileInfoPacket name size hash) := by
  have hlen : (NewFileInfoPacket name size hash).Data.length =
      10 + name.length + hash.length := by
    simp [NewFileInfoPacket, putUint16, putUint64]
    omega
  have hsize : (NewFileInfoPacket name size hash).DataSize =
      (NewFileInfoPacket name size hash).Data.length := by
    rw [hlen]
    simp only [NewFileInfoPacket, List.nil_append, List.length_append, putUint16, putUint64,
      List.length_cons, List.length_nil]
    omega
  have hbytes : ∀ v ∈ (NewFileInfoPacket name size hash).Data, v < 256 := by
    intro v hv
    simp only [NewFileInfoPacket, List.nil_append, List.mem_append, putUint16, putUint64,
      List.mem_cons, List.mem_singleton, List.not_mem_nil, or_false] at hv
    rcases hv with ((h | h) | h) | h
    · omega
    · exact hn v h
    · omega
    · exact hh v h
  have hck : (NewFileInfoPacket name size hash).Checksum < 2 ^ 32 :=
    calculateChecksum_lt
      { Typ := FileInfoPacket, SeqNum := 0, Checksum := 0,
        DataSize := (NewFileInfoPacket name size hash).DataSize,
        Data := (NewFileInfoPacket name size hash).Data } hbytes
  apply Deserialize_take_Serialize
  · refine ⟨by norm_num [NewFileInfoPacket, FileInfoPacket],
      by norm_num [NewFileInfoPacket], hck, ?_⟩
    rw [hsize, hlen]
    omega
  · exact hsize.symm
  · intro h0
    rw [h0] at hlen
    simp at hlen
    omega
  · rw [hlen]
    omega

/-! ## Claim on the finalization -/

/-- The datagram of a packet of type `CompletePacket` with the one-byte payload `[0]` and a
valid checksum is parsed from the receive buffer and verified. -/
theorem complete_datagram_valid :
    Deserialize (([4, 0, 0, 0, 0, 248, 115, 224, 210, 0, 1, 0] : List Nat).take 2048) =
      .ok { Typ := CompletePacket, SeqNum := 0, Checksum := 4168343762, DataSize := 1,
            Data := [0] } ∧
    ({ Typ := CompletePacket, SeqNum := 0, Checksum := 4168343762, DataSize := 1,
       Data := [0] } : Packet).Verify = true := by
  constructor
  · rw [List.take_of_length_le (by simp), Deserialize_header]
    simp [readerRead, beUint16, beUint32, CompletePacket]
  · simp [Packet.Verify, Packet.calculateChecksum, CompletePacket, putUint32, putUint16,
      crcUpdate, crcLoop, ieeeTable, crcShift, IEEE]

/-- C4 (counterexample): two receiver states that reach finalization with no sequence
number in `1..maxSeqNum` absent, in which `finalizeTransfer` returns neither success nor
the integrity error, whatever the hashes are. In the first, `maxSeqNum = 2^32 - 1`, the
output file is created and the map holds every sequence number `1..maxSeqNum` (and not the
key 0): the error is the missing packet 0. The second is the state in which `Listen` calls
`finalizeTransfer` when the first datagram is a verified packet of type `CompletePacket`:
no file-info packet has been accepted, `maxSeqNum = 0`, the output file is `nil`, and the
error is the one of the hash read. -/
theorem C4_counterexample :
    ((∀ k, 1 ≤ k → k ≤ 2 ^ 32 - 1 →
        (if k = 0 then none else some ([] : List Nat)) ≠ none) ∧
      ∀ (sha : List Nat → List Nat) (hash : List Nat), ∃ out,
        finalizeTransfer sha
          { receivedPackets := fun k => if k = 0 then none else some [],
            expectedSeqNum := 1, maxSeqNum := 2 ^ 32 - 1, fileName := [],
            fileSize := (2 ^ 32 - 1) * 1400, fileHash := hash, clientAddr := none,
            outputFile := true }
          (2 ^ 32) = some (out, some (.missingPacket 0))) ∧
    ((∀ create : List Nat → Bool,
        Listen create NewServer [([4, 0, 0, 0, 0, 248, 115, 224, 210, 0, 1, 0], 9)] =
          .finalize { NewServer with clientAddr := some 9 }) ∧
      ∀ sha : List Nat → List Nat,
        finalizeTransfer sha { NewServer with clientAddr := some 9 } 1 =
          some ([], some .hashReadFailed)) := by
  have hpres : ∀ k, 1 ≤ k → k ≤ 2 ^ 32 - 1 →
      (if k = 0 then none else some ([] : List Nat)) ≠ none := by
    intro k h1 _
    have hk : ¬ k = 0 := by omega
    simp [hk]
  refine ⟨⟨hpres, fun sha hash => ?_⟩, fun create => ?_, fun sha => ?_⟩
  · have hw := writeLoop_wrap
      { receivedPackets := fun k => if k = 0 then none else some [],
        expectedSeqNum := 1, maxSeqNum := 2 ^ 32 - 1, fileName := [],
        fileSize := (2 ^ 32 - 1) * 1400, fileHash := hash, clientAddr := none,
        outputFile := true }
      rfl hpres rfl (2 ^ 32) (by norm_num)
    exact ⟨_, finalizeTransfer_of_error sha _ _ _ _ hw⟩
  · have hstep := listenStep_complete create NewServer
      [4, 0, 0, 0, 0, 248, 115, 224, 210, 0, 1, 0] 9 _ complete_datagram_valid.1
      complete_datagram_valid.2 rfl
    simp only [Listen, hstep]
  · exact finalizeTransfer_of_nil sha _ 1 [] (by simp [writeLoop, NewServer]) rfl

/-- C4 (amended): in a receiver state that reaches finalization, when `j` is the smallest
sequence number in `1..maxSeqNum` absent from `receivedPackets`, `finalizeTransfer` returns
the missing-packet error for `j`; when none is absent, the output file has been created
and `maxSeqNum < 2^32 - 1`, it writes the payloads `1..maxSeqNum` in ascending order,
returns success exactly when `fileHash` and the SHA-256 of the written content have the
same length and the same bytes, and returns the integrity error otherwise. -/
theorem C4_finalize_result (sha : List Nat → List Nat) (s : Server)
    (hrange : s.maxSeqNum < 2 ^ 32) (fuel : Nat) (hfuel : s.maxSeqNum < fuel) :
    (∀ j, 1 ≤ j → j ≤ s.maxSeqNum → s.receivedPackets j = none →
      (∀ k, 1 ≤ k → k < j → s.receivedPackets k ≠ none) →
      ∃ out, finalizeTransfer sha s fuel = some (out, some (.missingPacket j))) ∧
    (s.outputFile = true → s.maxSeqNum < 2 ^ 32 - 1 →
      (∀ k, 1 ≤ k → k ≤ s.maxSeqNum → s.receivedPackets k ≠ none) →
      ∃ err, finalizeTransfer sha s fuel =
          some (((List.range' 1 s.maxSeqNum).map
            (fun k => (s.receivedPackets k).getD [])).flatten, err) ∧
        (err = none ↔
          (s.fileHash.length = (sha ((List.range' 1 s.maxSeqNum).map
              (fun k => (s.receivedPackets k).getD [])).flatten).length ∧
            ∀ i, i < s.fileHash.length → s.fileHash.getD i 0 =
              (sha ((List.range' 1 s.maxSeqNum).map
                (fun k => (s.receivedPackets k).getD [])).flatten).getD i 0)) ∧
        (err ≠ none → err = some .integrityCheckFailed)) := by
  constructor
  · intro j hj1 hj2 habs hpres
    exact ⟨_, finalizeTransfer_of_error sha s fuel _ _
      (writeLoop_missing s hrange j hj1 hj2 habs hpres fuel (by omega))⟩
  · intro hopen hmax hpres
    have hw := writeLoop_complete s hmax hpres fuel hfuel
    refine ⟨_, finalizeTransfer_of_written sha s fuel _ hw hopen, ?_, ?_⟩
    · rw [← compareHashes_iff]
      by_cases hc : compareHashes s.fileHash (sha ((List.range' 1 s.maxSeqNum).map
          (fun k => (s.receivedPackets k).getD [])).flatten) = true <;> simp [hc]
    · intro hne
      by_cases hc : compareHashes s.fileHash (sha ((List.range' 1 s.maxSeqNum).map
          (fun k => (s.receivedPackets k).getD [])).flatten) = true
      · simp [hc] at hne
      · simp [hc]

/-- Witness of C4 at a receiver that expects two packets and holds only the first. -/
theorem C4_finalize_result_witness :
    (2 : Nat) < 2 ^ 32 ∧ (2 : Nat) < 3 ∧
    ∃ out, finalizeTransfer (fun _ => [])
      { receivedPackets := fun k => if k = 1 then some [10, 20] else none,
        expectedSeqNum := 1, maxSeqNum := 2, fileName := [], fileSize := 1402,
        fileHash := [], clientAddr := none, outputFile := true } 3 =
          some (out, some (.missingPacket 2)) :=
  ⟨by norm_num, by norm_num,
    (C4_finalize_result (fun _ => [])
      { receivedPackets := fun k => if k = 1 then some [10, 20] else none,
        expectedSeqNum := 1, maxSeqNum := 2, fileName := [], fileSize := 1402,
        fileHash := [], clientAddr := none, outputFile := true }
      (by norm_num) 3 (by norm_num)).1 2
      (by norm_num) (by norm_num) (by simp)
      (fun k h1 h2 => by
        have hk : k = 1 := by omega
        simp [hk])⟩

/-! ## Claim on the receive loop -/

/-- C11 (counterexample): the receiver as `NewServer` returns it has accepted no file-info
packet and holds nothing under the key 1. The datagram of the verified data packet with
sequence number 1 and payload `[7]` is stored under the key 1 by the receive loop; after
the file-info packet of a one-byte file is accepted (its output file is created),
`finalizeTransfer` writes the payload `[7]` as the reassembled output. -/
theorem C11_counterexample :
    (NewDataPacket 1 [7]).Verify = true ∧
    NewServer.receivedPackets 1 = none ∧
    ∃ s1 s2,
      listenStep (fun _ => true) NewServer (NewDataPacket 1 [7]).Serialize 9 = .next s1 ∧
      s1.receivedPackets 1 = some [7] ∧
      listenStep (fun _ => true) s1
        (NewFileInfoPacket [102] 1 (List.replicate 32 0)).Serialize 9 = .next s2 ∧
      ∀ sha : List Nat → List Nat, ∃ err, finalizeTransfer sha s2 2 = some ([7], err) := by
  have hd : Deserialize ((NewDataPacket 1 [7]).Serialize.take 2048) =
      .ok (NewDataPacket 1 [7]) := by
    apply Deserialize_take_Serialize
    · exact NewDataPacket_InRange 1 [7] (by norm_num) (by simp) (by simp)
    · simp [NewDataPacket, MaxDataSize]
    · simp [NewDataPacket, MaxDataSize]
    · simp [NewDataPacket, MaxDataSize]
  have hf := Deserialize_NewFileInfoPacket [102] 1 (List.replicate 32 0) (by simp)
    (by simp) (by simp)
  have hx := ExtractFileInfo_NewFileInfoPacket [102] 1 (List.replicate 32 0) (by simp)
    (by norm_num) (by norm_num) (by simp)
  have hmax : ((Int.tdiv (uint64ToInt64 (int64ToUint64 ((1 : Int) + 1400 - 1))) 1400) %
      2 ^ 32).toNat = 1 := by
    decide
  have hmax2 : ((Int.tdiv (uint64ToInt64 (int64ToUint64 1400)) 1400) %
      4294967296).toNat = 1 := hmax
  refine ⟨NewDataPacket_Verify 1 [7], rfl, _, _,
    listenStep_data _ NewServer _ 9 _ hd (NewDataPacket_Verify 1 [7]) rfl, ?_,
    listenStep_fileInfo_ok _ _ _ 9 _ _ _ _ hf (NewFileInfoPacket_Verify _ _ _) rfl hx rfl,
    ?_⟩
  · simp [storeData, NewDataPacket, MaxDataSize]
  · intro sha
    refine ⟨_, finalizeTransfer_of_written sha _ 2 [7] ?_ rfl⟩
    simp [writeLoop, hmax2, storeData, NewDataPacket, MaxDataSize]

/-- C11 (amended): in the receive loop, a datagram that parses to a verified data packet is
stored in every receiver state, also when no file-info packet has been accepted before: the
loop goes on with a state in which `receivedPackets` holds the payload under the sequence
number of the packet and every other key, `maxSeqNum`, `expectedSeqNum`, the file fields
and the output file are unchanged; and for a verified file-info packet that is processed
afterwards, either the loop goes on with this entry still in `receivedPackets`, or the
output file cannot be created and `Listen` returns that error. -/
theorem C11_data_before_fileinfo_stored (create : List Nat → Bool) (s : Server)
    (datagram : List Nat) (clientAddr : Nat)
    (pkt : Packet) (hdes : Deserialize (datagram.take 2048) = .ok pkt)
    (hver : pkt.Verify = true) (htyp : pkt.Typ = DataPacket) :
    ∃ s', listenStep create s datagram clientAddr = .next s' ∧
      s'.receivedPackets pkt.SeqNum = some pkt.Data ∧
      (∀ k, k ≠ pkt.SeqNum → s'.receivedPackets k = s.receivedPackets k) ∧
      s'.maxSeqNum = s.maxSeqNum ∧ s'.expectedSeqNum = s.expectedSeqNum ∧
      s'.fileName = s.fileName ∧ s'.fileSize = s.fileSize ∧ s'.fileHash = s.fileHash ∧
      s'.outputFile = s.outputFile ∧
      ∀ (datagram2 : List Nat) (clientAddr2 : Nat) (info : Packet),
        Deserialize (datagram2.take 2048) = .ok info → info.Verify = true →
        info.Typ = FileInfoPacket →
        (∃ s'', listenStep create s' datagram2 clientAddr2 = .next s'' ∧
          s''.receivedPackets pkt.SeqNum = some pkt.Data) ∨
        listenStep create s' datagram2 clientAddr2 = .failed .createFailed := by
  refine ⟨_, listenStep_data create s datagram clientAddr pkt hdes hver htyp, ?_, ?_, rfl,
    rfl, rfl, rfl, rfl, rfl, ?_⟩
  · simp [storeData]
  · intro k hk
    simp [storeData, hk]
  · intro datagram2 clientAddr2 info hdes2 hver2 htyp2
    rcases listenStep_fileInfo create
      (storeData { s with clientAddr := some clientAddr } pkt) datagram2 clientAddr2 info
      hdes2 hver2 htyp2 with ⟨s'', hstep, hrecv⟩ | hfail
    · refine Or.inl ⟨s'', hstep, ?_⟩
      rw [hrecv]
      simp [storeData]
    · exact Or.inr hfail

/-- Witness of C11 at the receiver of `NewServer` and the datagram of the data packet with
sequence number 1 and payload `[7]`. -/
theorem C11_data_before_fileinfo_stored_witness :
    Deserialize ((NewDataPacket 1 [7]).Serialize.take 2048) = .ok (NewDataPacket 1 [7]) ∧
    (NewDataPacket 1 [7]).Verify = true ∧
    (NewDataPacket 1 [7]).Typ = DataPacket ∧
    ∃ s', listenStep (fun _ => true) NewServer (NewDataPacket 1 [7]).Serialize 9 =
        .next s' ∧
      s'.receivedPackets (NewDataPacket 1 [7]).SeqNum = some (NewDataPacket 1 [7]).Data := by
  have hd : Deserialize ((NewDataPacket 1 [7]).Serialize.take 2048) =
      .ok (NewDataPacket 1 [7]) := by
    apply Deserialize_take_Serialize
    · exact NewDataPacket_InRange 1 [7] (by norm_num) (by simp) (by simp)
    · simp [NewDataPacket, MaxDataSize]
    · simp [NewDataPacket, MaxDataSize]
    · simp [NewDataPacket, MaxDataSize]
  obtain ⟨s', h1, h2, _⟩ := C11_data_before_fileinfo_stored (fun _ => true) NewServer
    (NewDataPacket 1 [7]).Serialize 9 (NewDataPacket 1 [7]) hd
    (NewDataPacket_Verify 1 [7]) rfl
  exact ⟨hd, NewDataPacket_Verify 1 [7], rfl, s', h1, h2⟩

end Flash
